import Mathlib

/-!
Verification development for the rssched rolling-stock solver.

This file shallowly embeds the parts of the Rust sources that the verified
properties are about:

* `model/src/base_types.rs` - identifier types,
* `model/src/network/depot.rs` - depot capacities,
* `objective_framework/src/coefficient.rs` - coefficient times base value,
* `solution/src/schedule.rs` and `solution/src/schedule/modifications.rs` -
  the persistent schedule, its consistency checker, its comparison, and the
  mutating operations (spawn, delete, greedy end-depot reassignment),
* `solver_framework/src/local_search/local_improver.rs` - the three local
  improvers.

The crates `solution` and `model` reference files that are not part of the
source tree (most importantly the solution crate `tour.rs`,
`train_formation.rs`, `vehicle.rs` and the model crate `network.rs`).
Definitions for those are modelled from the specification; each such
definition carries a doc comment starting with "Modelled from the spec".

Persistent hash maps (`im::HashMap`) are modelled as association lists with
in-place replacement on insert; persistent hash sets of vehicle ids
(`im::HashSet`) are modelled as strictly sorted lists, which is a canonical
representative of the set.  Rust panics (`unwrap`, failed assertions) are
modelled by the `RunError.panicked` constructor of an `Except` result;
recoverable `Err` results are modelled by `RunError.failure`.
-/

namespace RS

/-- Ordering helper mirroring Rust `Ordering::then`: keep the first ordering
unless it is `Equal`. -/
def ordThen (a b : Ordering) : Ordering :=
  match a with
  | .eq => b
  | o => o

/-- Total comparison on naturals written with explicit tests, mirroring the
derived `Ord` on Rust unsigned integers. -/
def natCmp (i j : Nat) : Ordering :=
  if i < j then .lt else if j < i then .gt else .eq

theorem natCmp_self (i : Nat) : natCmp i i = .eq := by
  simp [natCmp]

/-! ## Identifier types (model/src/base_types.rs) -/

abbrev Idx := Nat

abbrev DepotIdx := Nat

abbrev VehicleTypeIdx := Nat

abbrev Location := Nat

/-- Node identifiers; the node kind is part of the identifier, mirroring the
`NodeIdx` enum of `base_types.rs`. -/
inductive NodeIdx where
  | startDepot (i : Idx)
  | service (i : Idx)
  | maintenance (i : Idx)
  | endDepot (i : Idx)
deriving DecidableEq, Repr

def NodeIdx.isDepot : NodeIdx → Bool
  | .startDepot _ => true
  | .endDepot _ => true
  | .service _ => false
  | .maintenance _ => false

def NodeIdx.isStartDepot : NodeIdx → Bool
  | .startDepot _ => true
  | _ => false

def NodeIdx.isEndDepot : NodeIdx → Bool
  | .endDepot _ => true
  | _ => false

/-- Rank of the constructor, used for the derived lexicographic order on
`NodeIdx` (constructor order, then index, as Rust derives `Ord`). -/
def NodeIdx.rank : NodeIdx → Nat
  | .startDepot _ => 0
  | .service _ => 1
  | .maintenance _ => 2
  | .endDepot _ => 3

def NodeIdx.index : NodeIdx → Idx
  | .startDepot i => i
  | .service i => i
  | .maintenance i => i
  | .endDepot i => i

/-- Derived `Ord` on `NodeIdx`: constructor order, then payload. -/
def nodeCmp (a b : NodeIdx) : Ordering :=
  ordThen (natCmp a.rank b.rank) (natCmp a.index b.index)

theorem nodeCmp_self (n : NodeIdx) : nodeCmp n n = .eq := by
  simp [nodeCmp, natCmp_self, ordThen]

/-- Vehicle identifiers: real vehicles and dummy vehicles, mirroring
`VehicleIdx` of `base_types.rs` (real ids sort before dummy ids, as the
derived Rust `Ord` orders the variants). -/
inductive VehicleId where
  | vehicle (i : Idx)
  | dummy (i : Idx)
deriving DecidableEq, Repr

/-- Strict order on vehicle identifiers (derived Rust `Ord`). -/
def VehicleId.lt : VehicleId → VehicleId → Bool
  | .vehicle i, .vehicle j => i < j
  | .vehicle _, .dummy _ => true
  | .dummy _, .vehicle _ => false
  | .dummy i, .dummy j => i < j

/-! ## Finite-map and set containers

`im::HashMap` is modelled as an association list whose insert replaces the
first matching key in place; `im::HashSet` over vehicle ids is modelled as a
strictly sorted list (the canonical representative of the set). -/

section Containers

variable {κ : Type} {ν : Type} [DecidableEq κ]

/-- Lookup in an association list (first matching key wins), modelling
`HashMap::get`. -/
def alookup : List (κ × ν) → κ → Option ν
  | [], _ => none
  | p :: rest, k => if p.1 = k then some p.2 else alookup rest k

/-- Insert into an association list, replacing the first matching entry in
place, modelling `HashMap::insert`. -/
def ainsert : List (κ × ν) → κ → ν → List (κ × ν)
  | [], k, v => [(k, v)]
  | p :: rest, k, v => if p.1 = k then (k, v) :: rest else p :: ainsert rest k v

/-- Remove the first entry with the given key, modelling `HashMap::remove`. -/
def aremove : List (κ × ν) → κ → List (κ × ν)
  | [], _ => []
  | p :: rest, k => if p.1 = k then rest else p :: aremove rest k

theorem alookup_ainsert_self (m : List (κ × ν)) (k : κ) (v : ν) :
    alookup (ainsert m k v) k = some v := by
  induction m with
  | nil => simp [ainsert, alookup]
  | cons p rest ih =>
    by_cases h : p.1 = k <;> simp [ainsert, alookup, h, ih]

theorem alookup_ainsert_ne (m : List (κ × ν)) (k k' : κ) (v : ν) (h : k ≠ k') :
    alookup (ainsert m k v) k' = alookup m k' := by
  induction m with
  | nil => simp [ainsert, alookup, h]
  | cons p rest ih =>
    by_cases hp : p.1 = k
    · simp [ainsert, alookup, hp, h]
    · by_cases hp' : p.1 = k' <;> simp [ainsert, alookup, hp, hp', Ne.symm h, ih]

theorem ainsert_lookup_eq (m : List (κ × ν)) (k : κ) (v : ν)
    (h : alookup m k = some v) : ainsert m k v = m := by
  induction m with
  | nil => simp [alookup] at h
  | cons p rest ih =>
    by_cases hp : p.1 = k
    · simp [alookup, hp] at h
      cases p with
      | mk pk pv => simp_all [ainsert]
    · simp [alookup, hp] at h
      simp [ainsert, hp, ih h]

theorem ainsert_ainsert (m : List (κ × ν)) (k : κ) (v w : ν) :
    ainsert (ainsert m k v) k w = ainsert m k w := by
  induction m with
  | nil => simp [ainsert]
  | cons p rest ih =>
    by_cases hp : p.1 = k <;> simp [ainsert, hp, ih]

end Containers

/-- Membership test on a list of vehicle ids (`HashSet::contains` /
`Vec::contains`). -/
def vmem (l : List VehicleId) (v : VehicleId) : Bool := l.contains v

/-- Insert into a strictly sorted vehicle-id list, keeping it a canonical
set representative (`HashSet::insert`). -/
def sinsert : List VehicleId → VehicleId → List VehicleId
  | [], v => [v]
  | x :: rest, v =>
    if VehicleId.lt v x then v :: x :: rest
    else if v = x then x :: rest
    else x :: sinsert rest v

/-- Remove from a vehicle-id set; `none` models `HashSet::remove` returning
`None` (the element was absent). -/
def sremove : List VehicleId → VehicleId → Option (List VehicleId)
  | [], _ => none
  | x :: rest, v =>
    if v = x then some rest else (sremove rest v).map (fun l => x :: l)

/-- Insert into the sorted id vector at the binary-search position
(`Vec::insert` at `binary_search(..).unwrap_or_else(|e| e)`); if the id is
already present a duplicate is inserted at its position, exactly as the Rust
code does. -/
def vinsert : List VehicleId → VehicleId → List VehicleId
  | [], v => [v]
  | x :: rest, v =>
    if VehicleId.lt v x then v :: x :: rest
    else if v = x then v :: x :: rest
    else x :: vinsert rest v

/-- Check that a vehicle-id list is strictly increasing, mirroring the
`tuple_windows` assertion in `verify_consistency`. -/
def strictlySorted : List VehicleId → Bool
  | [] => true
  | [_] => true
  | x :: y :: rest => VehicleId.lt x y && strictlySorted (y :: rest)

/-! ## Run errors

Rust `Err(String)` results are `failure`; panics (`unwrap` on `None`/`Err`,
failed assertions) are `panicked`. -/

inductive RunError where
  | failure (msg : String)
  | panicked (msg : String)
deriving DecidableEq, Repr

/-- Turn an `unwrap` of a `Result` into a panic: errors become panics, as in
Rust `result.unwrap()`. -/
def unwrapE {α : Type} : Except RunError α → Except RunError α
  | .ok a => .ok a
  | .error (.failure msg) => .error (.panicked msg)
  | .error (.panicked msg) => .error (.panicked msg)

/-- Unwrap of an option: `none` models a Rust panic. -/
def unwrapO {α : Type} (o : Option α) (msg : String) : Except RunError α :=
  match o with
  | some a => .ok a
  | none => .error (.panicked msg)

/-! ## Depot (model/src/network/depot.rs) -/

/-- Depot record of `depot.rs`: total capacity plus a per-type map where a
missing entry forbids the type and an explicit `none` means no per-type
limit. -/
structure Depot where
  depotId : DepotIdx
  location : Location
  totalCapacity : Nat
  allowedTypes : List (VehicleTypeIdx × Option Nat)
deriving DecidableEq, Repr

/-- Embedding of `Depot::capacity_for`. -/
def Depot.capacityFor (d : Depot) (vt : VehicleTypeIdx) : Nat :=
  match alookup d.allowedTypes vt with
  | some (some c) => min c d.totalCapacity
  | some none => d.totalCapacity
  | none => 0

/-- Per-type bound as described by the spec data model: an explicit `none`
entry means unbounded (so the total capacity is the only bound) and a missing
entry forbids the type. -/
def specPerTypeBound (d : Depot) (vt : VehicleTypeIdx) : Nat :=
  match alookup d.allowedTypes vt with
  | some (some c) => c
  | some none => d.totalCapacity
  | none => 0

/-! ## Coefficient times base value (objective_framework/src/coefficient.rs) -/

/-- Modelled from the spec: the `time` crate `Duration` is absent from the
source tree; a duration is either a finite number of seconds or infinity, and
`in_sec` fails exactly on the infinite duration. -/
inductive RDuration where
  | finite (sec : Nat)
  | infinity
deriving DecidableEq, Repr

/-- Embedding of `Duration::in_sec`: the number of seconds of a finite
duration, failure for the infinite duration. -/
def RDuration.inSec : RDuration → Except Unit Nat
  | .finite s => .ok s
  | .infinity => .error ()

/-- Modelled from the spec: `base_value.rs` is absent from the source tree;
the variants are those matched by `coefficient.rs`.  Float payloads are
represented by rationals (the lattice constants `zero` and `maximum` and the
infinite duration, which are all this development reasons about, do not
depend on float rounding). -/
inductive BaseValue where
  | integer (i : Int)
  | float (x : Rat)
  | duration (d : RDuration)
  | maximum
  | zero
deriving DecidableEq, Repr

/-- Coefficient of `coefficient.rs`: an integer or a float (float payloads
again as rationals). -/
inductive Coefficient where
  | integer (c : Int)
  | float (x : Rat)
deriving DecidableEq, Repr

/-- Two-complement wrap of an integer into the i64 range, modelling Rust
release-mode wrapping multiplication. -/
def i64wrap (x : Int) : Int := (x + 2 ^ 63) % 2 ^ 64 - 2 ^ 63

/-- Rust `as u64` cast of a signed integer. -/
def u64cast (x : Int) : Nat := (x % 2 ^ 64).toNat

/-- Wrapping u64 multiplication. -/
def u64mul (a b : Nat) : Nat := a * b % 2 ^ 64

/-- Saturating cast of a rational to the i64 range with truncation toward
zero, modelling Rust float-to-integer `as` casts. -/
def ratAsI64 (x : Rat) : Int :=
  let t : Int := if x < 0 then -((-x).floor) else x.floor
  if t < -(2 ^ 63) then -(2 ^ 63) else if t > 2 ^ 63 - 1 then 2 ^ 63 - 1 else t

/-- Saturating cast of a rational to the u64 range with truncation toward
zero. -/
def ratAsU64 (x : Rat) : Nat :=
  if x < 0 then 0 else min x.floor.toNat (2 ^ 64 - 1)

/-- Embedding of `impl Mul<BaseValue> for Coefficient` from
`coefficient.rs`. -/
def Coefficient.mulBase : Coefficient → BaseValue → BaseValue
  | .integer c, .integer b => .integer (i64wrap (c * b))
  | .integer c, .float b => .float ((c : Rat) * b)
  | .integer c, .duration b =>
    match b.inSec with
    | .ok sec => .duration (.finite (u64mul (u64cast c) sec))
    | .error _ => .duration .infinity
  | .integer _, .maximum => .maximum
  | .integer _, .zero => .zero
  | .float c, .integer b => .integer (ratAsI64 (c * (b : Rat)))
  | .float c, .float b => .float (c * b)
  | .float c, .duration b =>
    match b.inSec with
    | .ok sec => .duration (.finite (ratAsU64 (c * (sec : Rat))))
    | .error _ => .duration .infinity
  | .float _, .maximum => .maximum
  | .float _, .zero => .zero

/-- C7: for every depot and vehicle type the effective spawn capacity is the
minimum of the per-type bound and the total capacity, and `capacity_for`
returns `min c total` for an explicit per-type capacity `c`, the total
capacity for an explicit `None` entry, and `0` when the type is absent from
the allowed-types map. -/
theorem c7_effective_capacity_is_min :
    ∀ (d : Depot) (vt : VehicleTypeIdx),
      d.capacityFor vt = min (specPerTypeBound d vt) d.totalCapacity ∧
      (∀ c, alookup d.allowedTypes vt = some (some c) →
        d.capacityFor vt = min c d.totalCapacity) ∧
      (alookup d.allowedTypes vt = some none →
        d.capacityFor vt = d.totalCapacity) ∧
      (alookup d.allowedTypes vt = none → d.capacityFor vt = 0) := by
  intro d vt
  refine ⟨?_, ?_, ?_, ?_⟩
  · unfold Depot.capacityFor specPerTypeBound
    match alookup d.allowedTypes vt with
    | some (some c) => rfl
    | some none => simp
    | none => simp
  · intro c h
    unfold Depot.capacityFor
    rw [h]
  · intro h
    unfold Depot.capacityFor
    rw [h]
  · intro h
    unfold Depot.capacityFor
    rw [h]

/-- C7 witness: evaluation of the three cases on a concrete depot. -/
theorem c7_effective_capacity_is_min_witness :
    (Depot.mk 0 0 5 [(0, some 3), (1, none)]).capacityFor 0 = min 3 5 ∧
    (Depot.mk 0 0 5 [(0, some 3), (1, none)]).capacityFor 1 = 5 ∧
    (Depot.mk 0 0 5 [(0, some 3), (1, none)]).capacityFor 2 = 0 :=
  ⟨(c7_effective_capacity_is_min (Depot.mk 0 0 5 [(0, some 3), (1, none)]) 0).2.1 3 (by decide),
   (c7_effective_capacity_is_min (Depot.mk 0 0 5 [(0, some 3), (1, none)]) 1).2.2.1 (by decide),
   (c7_effective_capacity_is_min (Depot.mk 0 0 5 [(0, some 3), (1, none)]) 2).2.2.2 (by decide)⟩

/-- C9: coefficient multiplication is total on the lattice constants and the
infinite duration: any coefficient times `Zero` is `Zero`, times `Maximum` is
`Maximum`, and times a duration whose seconds cannot be extracted yields the
infinite duration. -/
theorem c9_coefficient_mul_saturating :
    ∀ c : Coefficient,
      c.mulBase .zero = .zero ∧
      c.mulBase .maximum = .maximum ∧
      (∀ d : RDuration, d.inSec = .error () →
        c.mulBase (.duration d) = .duration .infinity) := by
  intro c
  refine ⟨?_, ?_, ?_⟩
  · cases c <;> rfl
  · cases c <;> rfl
  · intro d hd
    cases d with
    | finite s => simp [RDuration.inSec] at hd
    | infinity => cases c <;> rfl

/-- C9 witness: concrete evaluations for an integer and a float coefficient
on the infinite duration. -/
theorem c9_coefficient_mul_saturating_witness :
    (Coefficient.integer 7).mulBase (.duration .infinity) = .duration .infinity ∧
    (Coefficient.float (3 : Rat)).mulBase .zero = .zero :=
  ⟨(c9_coefficient_mul_saturating (Coefficient.integer 7)).2.2 .infinity rfl,
   (c9_coefficient_mul_saturating (Coefficient.float (3 : Rat))).1⟩

/-! ## Local improvers (solver_framework/src/local_search/local_improver.rs)

The improvers are generic over the solution type and the objective-value
type; the objective framework compares evaluated solutions by their
objective value only (spec section 4.5), so a solution type `α` together
with an evaluation map `value : α → β` into a linear order models an
`EvaluatedSolution` stream. -/

section LocalImprover

variable {α : Type} {β : Type} [LinearOrder β]

/-- Rust `Iterator::min_by`: fold keeping the accumulator unless the new
element is strictly smaller, so the first minimal element wins. -/
def rustMinBy (value : α → β) : List α → Option α
  | [] => none
  | x :: xs => some (xs.foldl (fun acc n => if value n < value acc then n else acc) x)

/-- Embedding of `Minimizer::improve`: evaluate the whole neighborhood, take
the minimum, and return it only on strict improvement. -/
def minimizerImprove (value : α → β) (neighborhood : α → List α) (incumbent : α) :
    Option α :=
  match rustMinBy value (neighborhood incumbent) with
  | some best => if value best < value incumbent then some best else none
  | none => none

/-- Insertion into a value-sorted list (helper for the stable sorts used by
the recursion bookkeeping). -/
def insertSorted (value : α → β) (a : α) : List α → List α
  | [] => [a]
  | x :: rest =>
    if value a ≤ value x then a :: x :: rest else x :: insertSorted value a rest

/-- Sort by objective value, modelling `Vec::sort` on evaluated solutions
(whose order is the objective value). -/
def sortByValue (value : α → β) (l : List α) : List α :=
  l.foldr (insertSorted value) []

/-- Remove consecutive elements with equal objective value keeping the first,
modelling `Vec::dedup` / `dedup_by` on evaluated solutions. -/
def dedupByValue (value : α → β) : List α → List α
  | [] => []
  | [x] => [x]
  | x :: y :: rest =>
    if value x = value y then dedupByValue value (x :: rest)
    else x :: dedupByValue value (y :: rest)
termination_by l => l.length

/-- One step of the recursion-candidate bookkeeping of
`TakeFirstRecursion::improve_recursion`: push the evaluated neighbor and, if
a recursion width is set, sort, remove duplicates and truncate to the best
`w` candidates. -/
def recursionCollect (value : α → β) (width : Option Nat) (acc : List α) (n : α) :
    List α :=
  match width with
  | none => acc ++ [n]
  | some w => (dedupByValue value (sortByValue value (acc ++ [n]))).take w

/-- Embedding of `TakeFirstRecursion::improve_recursion`: scan the union of
the neighborhoods for the first strict improvement over the objective to
beat; if none is found and recursion depth remains, recurse into the
collected candidate solutions. -/
def takeFirstRec (value : α → β) (neighborhood : α → List α) (width : Option Nat)
    (objectiveToBeat : β) : Nat → List α → Option α
  | rem, sols =>
    let union := sols.flatMap neighborhood
    match union.find? (fun n => decide (value n < objectiveToBeat)) with
    | some n => some n
    | none =>
      match rem with
      | 0 => none
      | r + 1 =>
        takeFirstRec value neighborhood width objectiveToBeat r
          (union.foldl (recursionCollect value width) [])

/-- Embedding of `TakeFirstRecursion::improve`. -/
def takeFirstImprove (value : α → β) (neighborhood : α → List α) (width : Option Nat)
    (depth : Nat) (s : α) : Option α :=
  takeFirstRec value neighborhood width (value s) depth [s]

/-- Modelled from the spec: the rayon scheduling of
`TakeAnyParallelRecursion::improve_recursion` is abstracted by an oracle that
yields, per spawned task, the raw `find_any` outcome together with the
candidate list the task accumulated.  The sequential part of the code is kept
exact: a task result is a success only if it strictly beats the objective to
beat, the final result is the best success in arrival order, and on failure
the collected candidates are sorted, deduplicated by comparison and passed to
the recursion. -/
def takeAnyRec (value : α → β) (oracle : Nat → List α → List (Option α × List α))
    (objectiveToBeat : β) : Nat → List α → Option α
  | rem, sols =>
    let outcomes := oracle rem sols
    let successes := outcomes.filterMap (fun oc =>
      oc.1.bind (fun n => if value n < objectiveToBeat then some n else none))
    let best := successes.foldl (fun acc n =>
      match acc with
      | none => some n
      | some m => if value n < value m then some n else acc) none
    match best with
    | some r => some r
    | none =>
      match rem with
      | 0 => none
      | r + 1 =>
        let failures := (outcomes.filterMap (fun oc =>
          if oc.1.isNone then some oc.2 else none)).flatten
        takeAnyRec value oracle objectiveToBeat r
          (dedupByValue value (sortByValue value failures))

/-- Embedding of `TakeAnyParallelRecursion::improve`. -/
def takeAnyImprove (value : α → β) (oracle : Nat → List α → List (Option α × List α))
    (depth : Nat) (s : α) : Option α :=
  takeAnyRec value oracle (value s) depth [s]

theorem foldlMin_mem (value : α → β) (xs : List α) (x : α) :
    xs.foldl (fun acc n => if value n < value acc then n else acc) x ∈ x :: xs := by
  induction xs generalizing x with
  | nil => simp [List.foldl]
  | cons y ys ih =>
    simp only [List.foldl]
    have h := ih (if value y < value x then y else x)
    rcases List.mem_cons.1 h with h1 | h2
    · by_cases hyx : value y < value x
      · rw [if_pos hyx] at h1 ⊢
        rw [h1]
        exact List.mem_cons.2 (Or.inr (List.mem_cons.2 (Or.inl rfl)))
      · rw [if_neg hyx] at h1 ⊢
        rw [h1]
        exact List.mem_cons.2 (Or.inl rfl)
    · exact List.mem_cons.2 (Or.inr (List.mem_cons.2 (Or.inr h2)))

theorem foldlMin_le (value : α → β) (xs : List α) (x : α) :
    ∀ m ∈ x :: xs,
      value (xs.foldl (fun acc n => if value n < value acc then n else acc) x) ≤ value m := by
  induction xs generalizing x with
  | nil => intro m hm; simp at hm; simp [hm, List.foldl]
  | cons y ys ih =>
    intro m hm
    simp only [List.foldl]
    have hstep : value (if value y < value x then y else x) ≤ value x ∧
        value (if value y < value x then y else x) ≤ value y := by
      by_cases hyx : value y < value x
      · exact ⟨by simp [hyx, le_of_lt hyx], by simp [hyx]⟩
      · exact ⟨by simp [hyx], by simp [hyx]; exact le_of_not_lt hyx⟩
    rcases List.mem_cons.1 hm with rfl | hm'
    · exact le_trans (ih _ _ (List.mem_cons.2 (Or.inl rfl))) hstep.1
    · rcases List.mem_cons.1 hm' with rfl | hm''
      · exact le_trans (ih _ _ (List.mem_cons.2 (Or.inl rfl))) hstep.2
      · exact ih _ _ (List.mem_cons.2 (Or.inr hm''))

theorem rustMinBy_spec (value : α → β) (l : List α) (n : α)
    (h : rustMinBy value l = some n) : n ∈ l ∧ ∀ m ∈ l, value n ≤ value m := by
  cases l with
  | nil => simp [rustMinBy] at h
  | cons x xs =>
    simp only [rustMinBy, Option.some.injEq] at h
    subst h
    exact ⟨foldlMin_mem value xs x, foldlMin_le value xs x⟩

theorem foldlBest_sat (value : α → β) (P : β → Prop) (L : List α)
    (hL : ∀ n ∈ L, P (value n)) :
    ∀ (init : Option α), (∀ i, init = some i → P (value i)) →
      ∀ r, L.foldl (fun acc n =>
          match acc with
          | none => some n
          | some m => if value n < value m then some n else acc) init = some r →
        P (value r) := by
  induction L with
  | nil =>
    intro init hinit r hr
    simp [List.foldl] at hr
    exact hinit r hr
  | cons x xs ih =>
    intro init hinit r hr
    simp only [List.foldl] at hr
    refine ih (fun n hn => hL n (List.mem_cons.2 (Or.inr hn))) _ ?_ r hr
    intro i hi
    cases init with
    | none =>
      simp at hi
      subst hi
      exact hL x (List.mem_cons.2 (Or.inl rfl))
    | some m =>
      by_cases hlt : value x < value m
      · simp [hlt] at hi
        subst hi
        exact hL x (List.mem_cons.2 (Or.inl rfl))
      · simp [hlt] at hi
        subst hi
        exact hinit m rfl

theorem takeFirstRec_lt (value : α → β) (neighborhood : α → List α)
    (width : Option Nat) (beat : β) :
    ∀ (rem : Nat) (sols : List α) (n : α),
      takeFirstRec value neighborhood width beat rem sols = some n → value n < beat := by
  intro rem
  induction rem with
  | zero =>
    intro sols n h
    simp only [takeFirstRec] at h
    cases hf : (sols.flatMap neighborhood).find? (fun n => decide (value n < beat)) with
    | some m =>
      rw [hf] at h
      simp at h
      subst h
      have := List.find?_some hf
      simpa using this
    | none => rw [hf] at h; simp at h
  | succ r ih =>
    intro sols n h
    simp only [takeFirstRec] at h
    cases hf : (sols.flatMap neighborhood).find? (fun n => decide (value n < beat)) with
    | some m =>
      rw [hf] at h
      simp at h
      subst h
      have := List.find?_some hf
      simpa using this
    | none =>
      rw [hf] at h
      exact ih _ n h

theorem takeAnyRec_lt (value : α → β) (oracle : Nat → List α → List (Option α × List α))
    (beat : β) :
    ∀ (rem : Nat) (sols : List α) (n : α),
      takeAnyRec value oracle beat rem sols = some n → value n < beat := by
  intro rem
  have key : ∀ (rem : Nat) (sols : List α),
      ∀ r, ((oracle rem sols).filterMap (fun oc =>
          oc.1.bind (fun n => if value n < beat then some n else none))).foldl
          (fun acc n =>
            match acc with
            | none => some n
            | some m => if value n < value m then some n else acc) none = some r →
        value r < beat := by
    intro rem sols r hr
    refine foldlBest_sat value (fun b => b < beat) _ ?_ none (by intro i hi; cases hi) r hr
    intro n hn
    rcases List.mem_filterMap.1 hn with ⟨oc, _, hoc⟩
    rcases Option.bind_eq_some.1 hoc with ⟨m, _, hm⟩
    by_cases hlt : value m < beat
    · simp [hlt] at hm; subst hm; exact hlt
    · simp [hlt] at hm
  induction rem with
  | zero =>
    intro sols n h
    simp only [takeAnyRec] at h
    cases hb : ((oracle 0 sols).filterMap (fun oc =>
        oc.1.bind (fun n => if value n < beat then some n else none))).foldl
        (fun acc n =>
          match acc with
          | none => some n
          | some m => if value n < value m then some n else acc) none with
    | some r =>
      rw [hb] at h
      simp at h
      subst h
      exact key 0 sols r hb
    | none => rw [hb] at h; simp at h
  | succ r ih =>
    intro sols n h
    simp only [takeAnyRec] at h
    cases hb : ((oracle (r + 1) sols).filterMap (fun oc =>
        oc.1.bind (fun n => if value n < beat then some n else none))).foldl
        (fun acc n =>
          match acc with
          | none => some n
          | some m => if value n < value m then some n else acc) none with
    | some s =>
      rw [hb] at h
      simp at h
      subst h
      exact key (r + 1) sols s hb
    | none =>
      rw [hb] at h
      exact ih _ n h

end LocalImprover

/-- C4: each of the three improvers returns `none` or a solution whose
objective value strictly improves on the incumbent; the Minimizer returns a
neighbor of minimal objective value exactly when that minimum strictly
improves on the incumbent, and `none` otherwise.  The parallel improver is
quantified over every scheduling oracle. -/
theorem c4_local_improvers_strictly_improve {α β : Type} [LinearOrder β]
    (value : α → β) (neighborhood : α → List α) (width : Option Nat) (depth : Nat)
    (oracle : Nat → List α → List (Option α × List α)) (s : α) :
    (∀ n, minimizerImprove value neighborhood s = some n →
      n ∈ neighborhood s ∧ value n < value s ∧ ∀ m ∈ neighborhood s, value n ≤ value m) ∧
    (minimizerImprove value neighborhood s = none ↔
      ∀ m ∈ neighborhood s, value s ≤ value m) ∧
    (∀ n, takeFirstImprove value neighborhood width depth s = some n →
      value n < value s) ∧
    (∀ n, takeAnyImprove value oracle depth s = some n → value n < value s) := by
  refine ⟨?_, ?_, ?_, ?_⟩
  · intro n h
    unfold minimizerImprove at h
    cases hmin : rustMinBy value (neighborhood s) with
    | none => rw [hmin] at h; simp at h
    | some best =>
      rw [hmin] at h
      by_cases hlt : value best < value s
      · simp [hlt] at h
        subst h
        rcases rustMinBy_spec value _ _ hmin with ⟨hm, hle⟩
        exact ⟨hm, hlt, hle⟩
      · simp [hlt] at h
  · unfold minimizerImprove
    cases hmin : rustMinBy value (neighborhood s) with
    | none =>
      simp only [true_iff]
      cases hnb : neighborhood s with
      | nil => simp
      | cons x xs => rw [hnb] at hmin; simp [rustMinBy] at hmin
    | some best =>
      rcases rustMinBy_spec value _ _ hmin with ⟨hm, hle⟩
      by_cases hlt : value best < value s
      · simp only [hlt, if_pos, if_true]
        constructor
        · intro h; cases h
        · intro h
          exact absurd hlt (not_lt.2 (h best hm))
      · simp only [hlt, if_neg, if_false]
        constructor
        · intro _ m hmem
          exact le_trans (le_of_not_lt hlt) (hle m hmem)
        · intro _
          trivial
  · intro n h
    exact takeFirstRec_lt value neighborhood width (value s) depth [s] n h
  · intro n h
    exact takeAnyRec_lt value oracle (value s) depth [s] n h

/-- C4 witness: concrete evaluations of all three improvers on the integer
line with neighborhood `[0, 5]` and incumbent `3`. -/
theorem c4_local_improvers_strictly_improve_witness :
    ((0 : Int) ∈ ([0, 5] : List Int) ∧ (0 : Int) < 3 ∧
      ∀ m ∈ ([0, 5] : List Int), (0 : Int) ≤ m) ∧
    (0 : Int) < 3 ∧ (0 : Int) < 3 :=
  ⟨(c4_local_improvers_strictly_improve (id : Int → Int) (fun _ => [0, 5]) none 1
      (fun _ _ => [(some 0, [])]) 3).1 0 (by decide),
   (c4_local_improvers_strictly_improve (id : Int → Int) (fun _ => [0, 5]) none 1
      (fun _ _ => [(some 0, [])]) 3).2.2.1 0 (by decide),
   (c4_local_improvers_strictly_improve (id : Int → Int) (fun _ => [0, 5]) none 1
      (fun _ _ => [(some 0, [])]) 3).2.2.2 0 (by decide)⟩

deriving instance DecidableEq for Except

/-! ## Network, vehicle types, vehicles (model crate) -/

/-- Data carried by a node (service trips carry demand and times, depot nodes
carry their location); mirrors the node queries used by the schedule code
(`start_time`, `end_time`, `start_location`, `end_location`, `demand`). -/
structure NodeData where
  startTime : Int
  endTime : Int
  startLocation : Location
  endLocation : Location
  demand : Nat
deriving DecidableEq, Repr

/-- Modelled from the spec: `model/src/network.rs` is absent from the source
tree.  The network is immutable and exposes exactly the queries the schedule
code uses: node data, the service/coverable node iterators, the depot-node
iterators sorted by distance, the depot id of a depot node, the per-depot
capacity lookup and the reachability predicate. -/
structure Network where
  nodeData : NodeIdx → NodeData
  serviceNodes : List NodeIdx
  coverableNodes : List NodeIdx
  startDepots : List NodeIdx
  endDepots : List NodeIdx
  depotOf : NodeIdx → DepotIdx
  capacityOf : DepotIdx → VehicleTypeIdx → Option Nat
  canReach : NodeIdx → NodeIdx → Bool
  startDepotsSortedTo : Location → List NodeIdx
  endDepotsSortedFrom : Location → List NodeIdx

/-- Modelled from the spec: vehicle types expose the seat count used by
`Vehicle::new` and the formation seat sums. -/
structure VehicleTypes where
  seatsOf : VehicleTypeIdx → Nat

/-- Modelled from the spec: `solution/src/vehicle.rs` is absent from the
source tree; a vehicle is its id, its type and the seats of that type. -/
structure Vehicle where
  id : VehicleId
  typeId : VehicleTypeIdx
  seats : Nat
deriving DecidableEq, Repr

/-! ## Train formations (modelled from spec section 4.2) -/

/-- Modelled from the spec: `train_formation.rs` is absent from the source
tree; a train formation is the ordered list of vehicles covering a node. -/
structure TrainFormation where
  formation : List Vehicle
deriving DecidableEq, Repr

def TrainFormation.empty : TrainFormation := ⟨[]⟩

def TrainFormation.ids (tf : TrainFormation) : List VehicleId :=
  tf.formation.map (fun v => v.id)

def TrainFormation.seats (tf : TrainFormation) : Nat :=
  (tf.formation.map (fun v => v.seats)).sum

/-- Append at the coupling tail (`add_at_tail`); no deduplication. -/
def TrainFormation.addAtTail (tf : TrainFormation) (v : Vehicle) : TrainFormation :=
  ⟨tf.formation ++ [v]⟩

/-- Remove the first occurrence of a vehicle id from a formation list. -/
def removeFirstVehicle : List Vehicle → VehicleId → Option (List Vehicle)
  | [], _ => none
  | x :: rest, v =>
    if x.id = v then some rest else (removeFirstVehicle rest v).map (fun l => x :: l)

/-- Replace the first occurrence of a vehicle id in place. -/
def replaceFirstVehicle : List Vehicle → VehicleId → Vehicle → Option (List Vehicle)
  | [], _, _ => none
  | x :: rest, old, rv =>
    if x.id = old then some (rv :: rest)
    else (replaceFirstVehicle rest old rv).map (fun l => x :: l)

/-- Modelled from the spec: `remove` fails with `NotInFormation` when the
vehicle is absent. -/
def TrainFormation.removeVehicle (tf : TrainFormation) (v : VehicleId) :
    Except RunError TrainFormation :=
  match removeFirstVehicle tf.formation v with
  | some l => .ok ⟨l⟩
  | none => .error (.failure "NotInFormation")

/-- Modelled from the spec: positional replacement preserving order; fails if
the old vehicle is absent. -/
def TrainFormation.replaceVehicle (tf : TrainFormation) (old : VehicleId)
    (rv : Vehicle) : Except RunError TrainFormation :=
  match replaceFirstVehicle tf.formation old rv with
  | some l => .ok ⟨l⟩
  | none => .error (.failure "NotInFormation")

/-! ## Tours (modelled from spec sections 3 and 4.1) -/

/-- Modelled from the spec: `solution/src/tour.rs` is absent from the source
tree; a tour is its ordered node sequence plus the dummy flag. -/
structure Tour where
  nodes : List NodeIdx
  isDummyTour : Bool
deriving DecidableEq, Repr

/-- All consecutive pairs of the node list satisfy `can_reach`. -/
def chainReach (nw : Network) : List NodeIdx → Bool
  | [] => true
  | [_] => true
  | a :: b :: rest => nw.canReach a b && chainReach nw (b :: rest)

/-- Depot structure of a real tour: exactly one start depot first, exactly
one end depot last, no intermediate depots, and at least one non-depot
node. -/
def tourDepotStructure : List NodeIdx → Bool
  | [] => false
  | first :: rest =>
    first.isStartDepot &&
    (match rest.getLast? with
     | some last => last.isEndDepot
     | none => false) &&
    rest.dropLast.all (fun n => !n.isDepot) &&
    !rest.dropLast.isEmpty

/-- Modelled from the spec: `Tour::new` validates the invariants and fails
with `NotReachable` or `BadDepotStructure`. -/
def Tour.new (nw : Network) (nodes : List NodeIdx) : Except RunError Tour :=
  if chainReach nw nodes then
    if tourDepotStructure nodes then .ok ⟨nodes, false⟩
    else .error (.failure "BadDepotStructure")
  else .error (.failure "NotReachable")

def Tour.startDepotNode (t : Tour) : Option NodeIdx :=
  t.nodes.head?.bind (fun n => if n.isStartDepot then some n else none)

def Tour.endDepotNode (t : Tour) : Option NodeIdx :=
  t.nodes.getLast?.bind (fun n => if n.isEndDepot then some n else none)

def Tour.firstNonDepot (t : Tour) : Option NodeIdx :=
  t.nodes.find? (fun n => !n.isDepot)

def Tour.lastNonDepot (t : Tour) : Option NodeIdx :=
  t.nodes.reverse.find? (fun n => !n.isDepot)

def Tour.nonDepotNodes (t : Tour) : List NodeIdx :=
  t.nodes.filter (fun n => !n.isDepot)

/-- Modelled from the spec: `replace_end_depot` swaps the terminal depot
node, validating reachability from the preceding node. -/
def Tour.replaceEndDepot (nw : Network) (t : Tour) (d : NodeIdx) :
    Except RunError Tour :=
  if !d.isEndDepot then .error (.failure "new end node is not an end depot")
  else
    match t.endDepotNode with
    | none => .error (.failure "tour does not end with an end depot")
    | some _ =>
      match t.nodes.dropLast.getLast? with
      | none => .error (.failure "tour has no node before the end depot")
      | some prev =>
        if nw.canReach prev d then .ok ⟨t.nodes.dropLast ++ [d], t.isDummyTour⟩
        else .error (.failure "NotReachable")

/-- Position of the first node of the list that cannot reach the target. -/
def findFirstNotReaching (nw : Network) (target : NodeIdx) : List NodeIdx → Option Nat
  | [] => none
  | n :: rest =>
    if nw.canReach n target then
      (findFirstNotReaching nw target rest).map (fun i => i + 1)
    else some 0

/-- Modelled from the spec: `latest_not_reaching_node(T, t)` returns the
position of the blocker, the smallest tour position whose node cannot reach
the target, and `None` when every tour node reaches the target. -/
def Tour.latestNotReachingNode (nw : Network) (t : Tour) (target : NodeIdx) :
    Option Nat :=
  findFirstNotReaching nw target t.nodes

def Tour.nthNode (t : Tour) (i : Nat) : Option NodeIdx := t.nodes[i]?

/-! ## Schedule (solution/src/schedule.rs) -/

abbrev DepotUsage :=
  List ((DepotIdx × VehicleTypeIdx) × (List VehicleId × List VehicleId))

/-- The persistent schedule snapshot of `schedule.rs`.  The `config`,
`vehicle_types` and `network` handles are passed to the operations
explicitly, so the record holds the data fields only. -/
structure Schedule where
  vehicles : List (VehicleId × Vehicle)
  tours : List (VehicleId × Tour)
  trainFormations : List (NodeIdx × TrainFormation)
  depotUsage : DepotUsage
  dummyTours : List (VehicleId × Tour)
  vehicleIdsSorted : List VehicleId
  dummyIdsSorted : List VehicleId
  vehicleCounter : Nat
deriving DecidableEq, Repr

def Schedule.numberOfVehicles (S : Schedule) : Nat := S.vehicles.length

def Schedule.isVehicle (S : Schedule) (v : VehicleId) : Bool :=
  (alookup S.vehicles v).isSome

def Schedule.isDummy (S : Schedule) (v : VehicleId) : Bool :=
  (alookup S.dummyTours v).isSome

/-- Embedding of `Schedule::tour_of`. -/
def Schedule.tourOf (S : Schedule) (v : VehicleId) : Except RunError Tour :=
  match alookup S.tours v with
  | some t => .ok t
  | none =>
    match alookup S.dummyTours v with
    | some t => .ok t
    | none => .error (.failure "neither vehicle nor dummy, so there is no tour")

/-- Embedding of `Schedule::can_depot_spawn_vehicle`: a capacity of `Some 0`
forbids spawning, `None` is unbounded, and otherwise the number of already
spawned vehicles of the type must be strictly below the capacity. -/
def Schedule.canDepotSpawnVehicle (S : Schedule) (nw : Network)
    (startDepot : NodeIdx) (vt : VehicleTypeIdx) : Bool :=
  let depot := nw.depotOf startDepot
  match nw.capacityOf depot vt with
  | some 0 => false
  | none => true
  | some cap =>
    (match alookup S.depotUsage (depot, vt) with
     | some sets => sets.1.length
     | none => 0) < cap

/-- Lookup of the train formation of a node; a missing entry models the
panicking `unwrap` in `train_formation_of`. -/
def Schedule.trainFormationOfE (S : Schedule) (n : NodeIdx) :
    Except RunError TrainFormation :=
  unwrapO (alookup S.trainFormations n) "node has no train formation"

/-- Embedding of `Schedule::number_of_unserved_passengers`: sum over all
service nodes of the uncovered part of the demand. -/
def Schedule.numberOfUnservedPassengers (S : Schedule) (nw : Network) :
    Except RunError Nat :=
  nw.serviceNodes.foldlM (fun acc n => do
    let demand := (nw.nodeData n).demand
    let tf ← S.trainFormationOfE n
    let served := tf.seats
    pure (acc + (if served > demand then 0 else demand - served))) 0

/-- Embedding of `Schedule::is_fully_covered`. -/
def Schedule.isFullyCoveredE (S : Schedule) (nw : Network) (n : NodeIdx) :
    Except RunError Bool := do
  let tf ← S.trainFormationOfE n
  pure (decide (tf.seats ≥ (nw.nodeData n).demand))

/-- HashSet equality of two id collections (`assert_eq!` on the collected
key sets of `verify_consistency`). -/
def sameElems (a b : List VehicleId) : Bool :=
  a.all (fun v => b.contains v) && b.all (fun v => a.contains v)

/-- Embedding of `Schedule::verify_consistency`; each Rust assertion (or
panicking unwrap inside an assertion) becomes a conjunct, so the function is
`true` exactly when the checker would run through without a failure. -/
def Schedule.verifyConsistency (S : Schedule) (nw : Network) : Bool :=
  -- the vehicle records are keyed by their own id and type lookup agrees
  S.vehicles.all (fun p =>
    p.2.id == p.1 &&
    (match alookup S.vehicles p.1 with
     | some veh => veh.typeId == p.2.typeId
     | none => false)) &&
  -- the vehicle key sets of all components coincide
  (let vehicleKeys := S.vehicles.map (fun p => p.1)
   sameElems vehicleKeys (S.tours.map (fun p => p.1)) &&
   sameElems vehicleKeys S.vehicleIdsSorted &&
   sameElems vehicleKeys ((S.trainFormations.map (fun p => p.2.ids)).flatten) &&
   sameElems vehicleKeys ((S.depotUsage.map (fun p => p.2.1 ++ p.2.2)).flatten)) &&
  strictlySorted S.vehicleIdsSorted &&
  sameElems (S.dummyTours.map (fun p => p.1)) S.dummyIdsSorted &&
  strictlySorted S.dummyIdsSorted &&
  -- per-tour checks
  S.vehicles.all (fun p =>
    match alookup S.tours p.1 with
    | none => false
    | some tour =>
      chainReach nw tour.nodes &&
      !tour.isDummyTour &&
      tour.nonDepotNodes.all (fun n =>
        match alookup S.trainFormations n with
        | none => false
        | some tf => tf.ids.contains p.1) &&
      (match tour.startDepotNode, tour.endDepotNode with
       | some sd, some ed =>
         (match alookup S.depotUsage (nw.depotOf sd, p.2.typeId) with
          | some sets => sets.1.contains p.1
          | none => false) &&
         (match alookup S.depotUsage (nw.depotOf ed, p.2.typeId) with
          | some sets => sets.2.contains p.1
          | none => false)
       | _, _ => false)) &&
  -- every vehicle listed in depot_usage exists, has the right type and the
  -- right terminal depot
  S.depotUsage.all (fun entry =>
    entry.2.1.all (fun v =>
      match alookup S.vehicles v with
      | none => false
      | some veh =>
        veh.typeId == entry.1.2 &&
        (match S.tourOf v with
         | .ok t =>
           (match t.startDepotNode with
            | some sd => nw.depotOf sd == entry.1.1
            | none => false)
         | .error _ => false)) &&
    entry.2.2.all (fun v =>
      match alookup S.vehicles v with
      | none => false
      | some veh =>
        veh.typeId == entry.1.2 &&
        (match S.tourOf v with
         | .ok t =>
           (match t.endDepotNode with
            | some ed => nw.depotOf ed == entry.1.1
            | none => false)
         | .error _ => false))) &&
  -- train formations: members exist with matching type, cover the node, and
  -- no vehicle appears twice
  nw.coverableNodes.all (fun n =>
    match alookup S.trainFormations n with
    | none => false
    | some tf =>
      tf.formation.all (fun veh =>
        (match alookup S.vehicles veh.id with
         | some entry => entry.typeId == veh.typeId
         | none => false) &&
        (match S.tourOf veh.id with
         | .ok t => t.nodes.contains n
         | .error _ => false)) &&
      tf.ids.dedup.length == tf.ids.length) &&
  -- spawn limits
  S.depotUsage.all (fun entry =>
    match nw.capacityOf entry.1.1 entry.1.2 with
    | some cap => entry.2.1.length ≤ cap
    | none => true)

/-- Embedding of `Schedule::empty`. -/
def Schedule.empty (nw : Network) : Schedule where
  vehicles := []
  tours := []
  trainFormations := nw.coverableNodes.map (fun n => (n, TrainFormation.empty))
  depotUsage := []
  dummyTours := []
  vehicleIdsSorted := []
  dummyIdsSorted := []
  vehicleCounter := 0

/-! ## Schedule modifications (solution/src/schedule/modifications.rs) -/

/-- Embedding of `vehicle_replacement_in_train_formation`: the four arms of
the guarded Rust match (a dummy provider or receiver is treated like
`None`). -/
def Schedule.vehicleReplacementInTrainFormation (S : Schedule)
    (provider : Option VehicleId) (receiverVehicle : Option Vehicle)
    (node : NodeIdx) : Except RunError TrainFormation := do
  let oldFormation ← unwrapO (alookup S.trainFormations node)
    "node has no train formation"
  let receiverReal : Option Vehicle :=
    receiverVehicle.bind (fun rv => if S.isDummy rv.id then none else some rv)
  let providerReal : Option VehicleId :=
    provider.bind (fun p => if S.isDummy p then none else some p)
  match receiverReal, providerReal with
  | some rv, some prov => oldFormation.replaceVehicle prov rv
  | some rv, none => .ok (oldFormation.addAtTail rv)
  | none, some prov => oldFormation.removeVehicle prov
  | none, none => .ok oldFormation

/-- Embedding of `update_train_formation`: rewrite the formation of every
non-depot moved node; the result of the replacement is unwrapped (a failed
replacement panics).  The replacement always reads the formations of the
receiver schedule `S`, as the Rust code does. -/
def Schedule.updateTrainFormation (S : Schedule)
    (tfs : List (NodeIdx × TrainFormation)) (provider : Option VehicleId)
    (receiverVehicle : Option Vehicle) :
    List NodeIdx → Except RunError (List (NodeIdx × TrainFormation))
  | [] => .ok tfs
  | node :: rest =>
    if node.isDepot then S.updateTrainFormation tfs provider receiverVehicle rest
    else do
      let tf ← unwrapE
        (S.vehicleReplacementInTrainFormation provider receiverVehicle node)
      S.updateTrainFormation (ainsert tfs node tf) provider receiverVehicle rest

/-- `HashMap::entry(..).and_modify(..)` with a pure closure: a vacant entry
is left untouched (the Rust code never attaches `or_insert`). -/
def entryAndModify (usage : DepotUsage) (k : DepotIdx × VehicleTypeIdx)
    (f : List VehicleId × List VehicleId → List VehicleId × List VehicleId) :
    DepotUsage :=
  match alookup usage k with
  | some v => ainsert usage k (f v)
  | none => usage

/-- `HashMap::entry(..).and_modify(..)` whose closure can panic (it unwraps
the result of `HashSet::remove`). -/
def entryAndModifyE (usage : DepotUsage) (k : DepotIdx × VehicleTypeIdx)
    (f : List VehicleId × List VehicleId →
      Except RunError (List VehicleId × List VehicleId)) :
    Except RunError DepotUsage :=
  match alookup usage k with
  | some v => do
    let v2 ← f v
    pure (ainsert usage k v2)
  | none => pure usage

/-- Embedding of `update_depot_usage_for_new_start_depot`. -/
def Schedule.updateDepotUsageForNewStartDepot (S : Schedule) (nw : Network)
    (usage : DepotUsage) (vehicle : Vehicle)
    (newStartDepotNode : Option NodeIdx) : Except RunError DepotUsage := do
  let vt := vehicle.typeId
  let vid := vehicle.id
  let usage1 ←
    if S.isVehicle vid then do
      let tour ← unwrapE (S.tourOf vid)
      let sd ← unwrapO tour.startDepotNode "tour has no start depot"
      entryAndModifyE usage (nw.depotOf sd, vt) (fun e => do
        let sp ← unwrapO (sremove e.1 vid) "HashSet remove of absent vehicle"
        pure (sp, e.2))
    else pure usage
  match newStartDepotNode with
  | some nd =>
    pure (entryAndModify usage1 (nw.depotOf nd, vt) (fun e => (sinsert e.1 vid, e.2)))
  | none => pure usage1

/-- Embedding of `update_depot_usage_for_new_end_depot`. -/
def Schedule.updateDepotUsageForNewEndDepot (S : Schedule) (nw : Network)
    (usage : DepotUsage) (vehicle : Vehicle)
    (newEndDepotNode : Option NodeIdx) : Except RunError DepotUsage := do
  let vt := vehicle.typeId
  let vid := vehicle.id
  let usage1 ←
    if S.isVehicle vid then do
      let tour ← unwrapE (S.tourOf vid)
      let ed ← unwrapO tour.endDepotNode "tour has no end depot"
      entryAndModifyE usage (nw.depotOf ed, vt) (fun e => do
        let de ← unwrapO (sremove e.2 vid) "HashSet remove of absent vehicle"
        pure (e.1, de))
    else pure usage
  match newEndDepotNode with
  | some nd =>
    pure (entryAndModify usage1 (nw.depotOf nd, vt) (fun e => (e.1, sinsert e.2 vid)))
  | none => pure usage1

/-- Embedding of `update_depot_usage_assuming_no_dummies`. -/
def Schedule.updateDepotUsageAssumingNoDummies (S : Schedule) (nw : Network)
    (usage : DepotUsage) (vehicle : Vehicle) (newTour : Option Tour) :
    Except RunError DepotUsage := do
  let newStart ←
    match newTour with
    | some t => (unwrapO t.startDepotNode "start_depot unwrap").map some
    | none => pure none
  let newEnd ←
    match newTour with
    | some t => (unwrapO t.endDepotNode "end_depot unwrap").map some
    | none => pure none
  let usage1 ← S.updateDepotUsageForNewStartDepot nw usage vehicle newStart
  S.updateDepotUsageForNewEndDepot nw usage1 vehicle newEnd

/-- Embedding of `update_depot_usage`. -/
def Schedule.updateDepotUsage (S : Schedule) (nw : Network) (usage : DepotUsage)
    (vehicles : List (VehicleId × Vehicle)) (tours : List (VehicleId × Tour))
    (vid : VehicleId) : Except RunError DepotUsage :=
  match alookup vehicles vid with
  | some vehicle =>
    S.updateDepotUsageAssumingNoDummies nw usage vehicle (alookup tours vid)
  | none =>
    match alookup S.vehicles vid with
    | some vehicle => S.updateDepotUsageAssumingNoDummies nw usage vehicle none
    | none => pure usage

/-- Embedding of `find_best_start_depot_for_spawning`: the first start depot
in distance order that can spawn the type. -/
def Schedule.findBestStartDepotForSpawning (S : Schedule) (nw : Network)
    (vt : VehicleTypeIdx) (firstNode : NodeIdx) : Except RunError NodeIdx :=
  let startLocation := (nw.nodeData firstNode).startLocation
  match (nw.startDepotsSortedTo startLocation).find?
      (fun d => S.canDepotSpawnVehicle nw d vt) with
  | some depot => .ok depot
  | none => .error (.failure "NoStartDepotAvailable")

/-- Embedding of `find_best_end_depot_for_despawning`: the nearest end depot
(no capacity check, as in the code). -/
def Schedule.findBestEndDepotForDespawning (S : Schedule) (nw : Network)
    (vt : VehicleTypeIdx) (lastNode : NodeIdx) : Except RunError NodeIdx :=
  let endLocation := (nw.nodeData lastNode).endLocation
  match (nw.endDepotsSortedFrom endLocation).head? with
  | some depot => .ok depot
  | none => .error (.failure "NoEndDepotAvailable")

/-- Embedding of `add_suitable_start_and_end_depot_to_path`. -/
def Schedule.addSuitableStartAndEndDepotToPath (S : Schedule) (nw : Network)
    (vt : VehicleTypeIdx) (nodes : List NodeIdx) :
    Except RunError (List NodeIdx) := do
  let firstNode ← unwrapO nodes.head? "first unwrap on empty path"
  let lastNode ← unwrapO nodes.getLast? "last unwrap on empty path"
  if firstNode.isDepot && !(S.canDepotSpawnVehicle nw firstNode vt) then
    .error (.failure "NoCapacityAtGivenStartDepot")
  else do
    let nodes1 ←
      if !firstNode.isDepot then do
        let depot ← S.findBestStartDepotForSpawning nw vt firstNode
        pure (depot :: nodes)
      else pure nodes
    let nodes2 ←
      if !lastNode.isDepot then do
        let depot ← S.findBestEndDepotForDespawning nw vt lastNode
        pure (nodes1 ++ [depot])
      else pure nodes1
    pure nodes2

/-- Embedding of `Schedule::spawn_vehicle_for_path`.  Note the update order
of the code: `update_depot_usage` is called with the tours map cloned before
the new tour is inserted. -/
def Schedule.spawnVehicleForPath (S : Schedule) (nw : Network)
    (vts : VehicleTypes) (vt : VehicleTypeIdx) (pathAsVec : List NodeIdx) :
    Except RunError Schedule := do
  let nodes ← S.addSuitableStartAndEndDepotToPath nw vt pathAsVec
  let vehicleId := VehicleId.vehicle S.vehicleCounter
  let tour ← Tour.new nw nodes
  let vehicle : Vehicle := ⟨vehicleId, vt, vts.seatsOf vt⟩
  let vehicles := ainsert S.vehicles vehicleId vehicle
  let vehicleIdsSorted := vinsert S.vehicleIdsSorted vehicleId
  let trainFormations ←
    S.updateTrainFormation S.trainFormations none (some vehicle) tour.nodes
  let depotUsage ← S.updateDepotUsage nw S.depotUsage vehicles S.tours vehicleId
  let tours := ainsert S.tours vehicleId tour
  pure
    { vehicles := vehicles
      tours := tours
      trainFormations := trainFormations
      depotUsage := depotUsage
      dummyTours := S.dummyTours
      vehicleIdsSorted := vehicleIdsSorted
      dummyIdsSorted := S.dummyIdsSorted
      vehicleCounter := S.vehicleCounter + 1 }

/-- Embedding of `Schedule::delete_vehicle`.  The code removes the tour from
the cloned map and then reads the same key back with an `unwrap` to walk the
train formations. -/
def Schedule.deleteVehicle (S : Schedule) (nw : Network) (vehicleId : VehicleId) :
    Except RunError Schedule := do
  if S.isDummy vehicleId then
    .error (.failure "Cannot delete dummy vehicle from schedule")
  else do
    let vehicles := aremove S.vehicles vehicleId
    let vehicleIdsSorted ← unwrapO (sremove S.vehicleIdsSorted vehicleId)
      "binary_search unwrap in delete_vehicle"
    let tours := aremove S.tours vehicleId
    let removedTour ← unwrapO (alookup tours vehicleId)
      "tours.get unwrap after tours.remove in delete_vehicle"
    let trainFormations ←
      S.updateTrainFormation S.trainFormations (some vehicleId) none removedTour.nodes
    let depotUsage ← S.updateDepotUsage nw S.depotUsage vehicles tours vehicleId
    pure
      { vehicles := vehicles
        tours := tours
        trainFormations := trainFormations
        depotUsage := depotUsage
        dummyTours := S.dummyTours
        vehicleIdsSorted := vehicleIdsSorted
        dummyIdsSorted := S.dummyIdsSorted
        vehicleCounter := S.vehicleCounter }

/-- Loop body of `reassign_end_depots_greedily`: replace the end depot of
the vehicle by the nearest end depot from the end location of the last
non-depot node and update the depot usage. -/
def Schedule.reassignStep (S : Schedule) (nw : Network)
    (acc : List (VehicleId × Tour) × DepotUsage) (vid : VehicleId) :
    Except RunError (List (VehicleId × Tour) × DepotUsage) := do
  let tour ← unwrapE (S.tourOf vid)
  let lastNd ← unwrapO tour.lastNonDepot "last_non_depot unwrap"
  let lastNodeLocation := (nw.nodeData lastNd).endLocation
  let newEndDepotNode ←
    match (nw.endDepotsSortedFrom lastNodeLocation).head? with
    | some d => Except.ok d
    | none => Except.error (.failure "Cannot find end depot for vehicle")
  let newTour ← unwrapE (tour.replaceEndDepot nw newEndDepotNode)
  let tours2 := ainsert acc.1 vid newTour
  let usage2 ← S.updateDepotUsage nw acc.2 S.vehicles tours2 vid
  pure (tours2, usage2)

/-- Embedding of `Schedule::reassign_end_depots_greedily` (note the
vehicle-counter increment in the result, as in the code). -/
def Schedule.reassignEndDepotsGreedily (S : Schedule) (nw : Network) :
    Except RunError Schedule := do
  let res ← S.vehicleIdsSorted.foldlM (S.reassignStep nw) (S.tours, S.depotUsage)
  pure
    { S with
      tours := res.1
      depotUsage := res.2
      vehicleCounter := S.vehicleCounter + 1 }

/-! ## Schedule comparison (impl Ord for Schedule) -/

/-- Lexicographic list comparison (derived `Ord` on `Vec`). -/
def listCmpWith {α : Type} (cmp : α → α → Ordering) : List α → List α → Ordering
  | [], [] => .eq
  | [], _ :: _ => .lt
  | _ :: _, [] => .gt
  | a :: as2, b :: bs => ordThen (cmp a b) (listCmpWith cmp as2 bs)

/-- Modelled from the spec: the `Ord` on `Tour` (absent `tour.rs`) compares
the node sequences lexicographically. -/
def tourCmp (a b : Tour) : Ordering := listCmpWith nodeCmp a.nodes b.nodes

/-- Comparison of the tours of two schedules zipped in sorted vehicle-id
order, stopping at the first difference; the tour lookups unwrap. -/
def tourPairsCmp (A B : Schedule) :
    List VehicleId → List VehicleId → Except RunError Ordering
  | v :: vs, w :: ws => do
    let ta ← unwrapE (A.tourOf v)
    let tb ← unwrapE (B.tourOf w)
    match tourCmp ta tb with
    | .eq => tourPairsCmp A B vs ws
    | o => pure o
  | _, _ => pure .eq

def insertTourSorted (t : Tour) : List Tour → List Tour
  | [] => [t]
  | x :: rest =>
    match tourCmp t x with
    | .lt => t :: x :: rest
    | _ => x :: insertTourSorted t rest

/-- `Vec::sort` of the collected dummy tours. -/
def sortTours (l : List Tour) : List Tour := l.foldr insertTourSorted []

/-- Zip comparison of the sorted dummy tours: the `zip` truncates to the
shorter list, and exhausting the zip yields `Equal` (the number of dummy
tours itself is never compared). -/
def zipCmpTours : List Tour → List Tour → Ordering
  | a :: as2, b :: bs =>
    (match tourCmp a b with
     | .eq => zipCmpTours as2 bs
     | o => o)
  | _, _ => .eq

def dummyToursCmp (A B : Schedule) : Ordering :=
  zipCmpTours (sortTours (A.dummyTours.map (fun p => p.2)))
    (sortTours (B.dummyTours.map (fun p => p.2)))

/-- Embedding of `impl Ord for Schedule`: vehicle count first, then the
tours in sorted vehicle-id order, then the sorted dummy tours via the
truncating zip. -/
def scheduleCmpE (A B : Schedule) : Except RunError Ordering := do
  let toursOrd ← tourPairsCmp A B A.vehicleIdsSorted B.vehicleIdsSorted
  let inner :=
    match toursOrd with
    | .eq => dummyToursCmp A B
    | o => o
  pure (ordThen (natCmp A.numberOfVehicles B.numberOfVehicles) inner)

/-- Embedding of `impl PartialEq for Schedule`: equality is `cmp == Equal`. -/
def scheduleEqE (A B : Schedule) : Except RunError Bool :=
  (scheduleCmpE A B).map (fun o => o == Ordering.eq)

/-! ## Concrete instances for the evaluation theorems -/

/-- Concrete network: one start depot, one service trip with demand 40, one
end depot; the depot allows one vehicle of every type. -/
def nwOne : Network where
  nodeData := fun n =>
    match n with
    | .service _ => ⟨10, 20, 1, 2, 40⟩
    | .startDepot _ => ⟨0, 0, 0, 0, 0⟩
    | .endDepot _ => ⟨100, 100, 2, 2, 0⟩
    | .maintenance _ => ⟨0, 0, 0, 0, 0⟩
  serviceNodes := [.service 0]
  coverableNodes := [.service 0]
  startDepots := [.startDepot 0]
  endDepots := [.endDepot 0]
  depotOf := fun n => n.index
  capacityOf := fun _ _ => some 1
  canReach := fun a b =>
    match a, b with
    | .startDepot _, .service _ => true
    | .service _, .endDepot _ => true
    | _, _ => false
  startDepotsSortedTo := fun _ => [.startDepot 0]
  endDepotsSortedFrom := fun _ => [.endDepot 0]

/-- One vehicle type with 50 seats. -/
def vtsOne : VehicleTypes := ⟨fun _ => 50⟩

/-- Concrete network with two mutually unreachable service trips and an
unbounded start depot. -/
def nwTwo : Network where
  nodeData := fun n =>
    match n with
    | .service 0 => ⟨10, 20, 1, 2, 40⟩
    | .service _ => ⟨12, 22, 3, 4, 40⟩
    | .startDepot _ => ⟨0, 0, 0, 0, 0⟩
    | .endDepot _ => ⟨100, 100, 2, 2, 0⟩
    | .maintenance _ => ⟨0, 0, 0, 0, 0⟩
  serviceNodes := [.service 0, .service 1]
  coverableNodes := [.service 0, .service 1]
  startDepots := [.startDepot 0]
  endDepots := [.endDepot 0]
  depotOf := fun n => n.index
  capacityOf := fun _ _ => none
  canReach := fun a b =>
    match a, b with
    | .startDepot _, .service _ => true
    | .service _, .endDepot _ => true
    | _, _ => false
  startDepotsSortedTo := fun _ => [.startDepot 0]
  endDepotsSortedFrom := fun _ => [.endDepot 0]

/-- C1: a single successful `spawn_vehicle_for_path` on the empty schedule
already violates `verify_consistency`: the depot-usage updates go through
`entry(..).and_modify(..)` with no `or_insert` (and are run before the new
tour is inserted into the tours map), so the spawned vehicle never enters
`depot_usage`, and the checker's key-set assertion
`vehicles == vehicles_from_depot_usage` fails. -/
theorem c1_spawn_violates_verify_consistency :
    ((Schedule.empty nwOne).spawnVehicleForPath nwOne vtsOne 0
        [NodeIdx.service 0]).map (fun S => S.verifyConsistency nwOne)
      = Except.ok false ∧
    ((Schedule.empty nwOne).spawnVehicleForPath nwOne vtsOne 0
        [NodeIdx.service 0]).map
        (fun S => (S.depotUsage, S.vehicleIdsSorted))
      = Except.ok ([], [VehicleId.vehicle 0]) := by
  exact ⟨rfl, rfl⟩

/-- C2: `delete_vehicle` removes the tour from the cloned tours map and then
reads the same key back with `unwrap`, so the spawn/delete round trip panics
instead of restoring the original schedule. -/
theorem c2_spawn_delete_roundtrip_panics :
    (((Schedule.empty nwOne).spawnVehicleForPath nwOne vtsOne 0
        [NodeIdx.service 0]).bind
        (fun S => S.deleteVehicle nwOne (VehicleId.vehicle 0)))
      = Except.error (RunError.panicked
          "tours.get unwrap after tours.remove in delete_vehicle") ∧
    ((Schedule.empty nwOne).spawnVehicleForPath nwOne vtsOne 0
        [NodeIdx.service 0]).isOk = true := by
  decide

/-- C10: the schedule comparison never compares the number of dummy tours
(contradicting its own doc comment): the zip over the sorted dummy tours
truncates to the shorter list, so a schedule with one extra dummy tour
compares `Equal` to one without it. -/
theorem c10_cmp_ignores_dummy_count :
    scheduleCmpE (Schedule.mk [] [] [] [] [] [] [] 0)
        (Schedule.mk [] [] [] []
          [(VehicleId.dummy 0, Tour.mk [NodeIdx.service 0] true)] []
          [VehicleId.dummy 0] 0)
      = Except.ok Ordering.eq ∧
    scheduleEqE (Schedule.mk [] [] [] [] [] [] [] 0)
        (Schedule.mk [] [] [] []
          [(VehicleId.dummy 0, Tour.mk [NodeIdx.service 0] true)] []
          [VehicleId.dummy 0] 0)
      = Except.ok true ∧
    sortTours ((Schedule.mk [] [] [] [] [] [] [] 0).dummyTours.map
        (fun p => p.2)) ≠
      sortTours ((Schedule.mk [] [] [] []
        [(VehicleId.dummy 0, Tour.mk [NodeIdx.service 0] true)] []
        [VehicleId.dummy 0] 0).dummyTours.map (fun p => p.2)) := by
  decide

/-! ## C5: unserved passengers -/

/-- The spec-side formula: sum over all service nodes of
`max 0 (demand - seats of the formation)`. -/
def specUnservedPassengers (S : Schedule) (nw : Network) : Nat :=
  (nw.serviceNodes.map (fun n =>
    (max 0 (((nw.nodeData n).demand : Int) -
      (((alookup S.trainFormations n).getD TrainFormation.empty).seats : Int))).toNat)).sum

theorem exceptBind_ok {ε α β : Type} (a : α) (f : α → Except ε β) :
    (Except.ok a >>= f : Except ε β) = f a := rfl

theorem exceptBind_err {ε α β : Type} (e : ε) (f : α → Except ε β) :
    (Except.error e >>= f : Except ε β) = Except.error e := rfl

theorem exceptPure_eq {ε α : Type} (a : α) :
    (pure a : Except ε α) = Except.ok a := rfl

theorem unserved_fold_eq (S : Schedule) (nw : Network) :
    ∀ (L : List NodeIdx), (∀ n ∈ L, (alookup S.trainFormations n).isSome) →
      ∀ acc : Nat,
        L.foldlM (fun acc n => do
            let demand := (nw.nodeData n).demand
            let tf ← S.trainFormationOfE n
            let served := tf.seats
            pure (acc + (if served > demand then 0 else demand - served))) acc
          = Except.ok (acc + (L.map (fun n =>
              (max 0 (((nw.nodeData n).demand : Int) -
                (((alookup S.trainFormations n).getD TrainFormation.empty).seats :
                  Int))).toNat)).sum) := by
  intro L
  induction L with
  | nil => intro _ acc; simp [List.foldlM_nil, exceptPure_eq]
  | cons x xs ih =>
    intro h acc
    have hx := h x (List.mem_cons.2 (Or.inl rfl))
    cases htf : alookup S.trainFormations x with
    | none => rw [htf] at hx; simp at hx
    | some tf =>
      have step : S.trainFormationOfE x = Except.ok tf := by
        simp [Schedule.trainFormationOfE, unwrapO, htf]
      have hterm : (if tf.seats > (nw.nodeData x).demand then 0
          else (nw.nodeData x).demand - tf.seats)
          = (max 0 (((nw.nodeData x).demand : Int) - (tf.seats : Int))).toNat := by
        by_cases hlt : tf.seats > (nw.nodeData x).demand
        · rw [if_pos hlt, max_eq_left (by omega : ((nw.nodeData x).demand : Int) -
            (tf.seats : Int) ≤ 0)]
          rfl
        · rw [if_neg hlt, max_eq_right (by omega : (0 : Int) ≤
            ((nw.nodeData x).demand : Int) - (tf.seats : Int))]
          omega
      simp only [List.foldlM_cons, step, exceptBind_ok, exceptPure_eq]
      refine Eq.trans (ih (fun n hn => h n (List.mem_cons.2 (Or.inr hn))) _) ?_
      simp only [Except.ok.injEq, List.map_cons, List.sum_cons, htf, Option.getD]
      rw [hterm]
      omega

/-- C5: `number_of_unserved_passengers` equals the sum over all service
nodes of `max 0 (demand - seats)`, and is zero exactly when every service
node is fully covered. -/
theorem c5_unserved_passengers_spec (S : Schedule) (nw : Network)
    (h : ∀ n ∈ nw.serviceNodes, (alookup S.trainFormations n).isSome) :
    S.numberOfUnservedPassengers nw = Except.ok (specUnservedPassengers S nw) ∧
    (specUnservedPassengers S nw = 0 ↔
      ∀ n ∈ nw.serviceNodes, S.isFullyCoveredE nw n = Except.ok true) := by
  constructor
  · have := unserved_fold_eq S nw nw.serviceNodes h 0
    simpa [Schedule.numberOfUnservedPassengers, specUnservedPassengers] using this
  · unfold specUnservedPassengers
    rw [List.sum_eq_zero_iff]
    constructor
    · intro hz n hn
      have hx := h n hn
      cases htf : alookup S.trainFormations n with
      | none => rw [htf] at hx; simp at hx
      | some tf =>
        have hterm := hz _ (List.mem_map.2 ⟨n, hn, rfl⟩)
        simp only [htf, Option.getD] at hterm
        have hge : (nw.nodeData n).demand ≤ tf.seats := by
          by_contra hc
          push_neg at hc
          rw [max_eq_right (by omega : (0 : Int) ≤
            ((nw.nodeData n).demand : Int) - (tf.seats : Int))] at hterm
          omega
        simp [Schedule.isFullyCoveredE, Schedule.trainFormationOfE, unwrapO, htf,
          exceptBind_ok, exceptPure_eq, hge]
    · intro hc x hx
      rcases List.mem_map.1 hx with ⟨n, hn, rfl⟩
      have hcn := hc n hn
      cases htf : alookup S.trainFormations n with
      | none =>
        have := h n hn
        rw [htf] at this
        simp at this
      | some tf =>
        simp [Schedule.isFullyCoveredE, Schedule.trainFormationOfE, unwrapO, htf,
          exceptBind_ok, exceptPure_eq] at hcn
        simp only [htf, Option.getD]
        rw [max_eq_left (by omega : ((nw.nodeData n).demand : Int) -
          (tf.seats : Int) ≤ 0)]
        rfl

/-- C5 witness: on the one-trip network with the empty schedule both parts
of the characterization evaluate (40 unserved passengers, not fully
covered). -/
theorem c5_unserved_passengers_spec_witness :
    (Schedule.empty nwOne).numberOfUnservedPassengers nwOne
      = Except.ok (specUnservedPassengers (Schedule.empty nwOne) nwOne) ∧
    (specUnservedPassengers (Schedule.empty nwOne) nwOne = 0 ↔
      ∀ n ∈ nwOne.serviceNodes,
        (Schedule.empty nwOne).isFullyCoveredE nwOne n = Except.ok true) :=
  c5_unserved_passengers_spec (Schedule.empty nwOne) nwOne (by decide)

/-! ## C8: the blocker search and the fit-insertion bound -/

/-- Embedding of the sub-segment upper-bound selection inside
`fit_path_into_tour` (modifications.rs): given the blocker of the receiver
tour, walk the path prefix of nodes that arrive no later than the blocker
departs, keep those that reach the blocker and whose initial segment is
removable from the provider tour, and take the last such enumerated node;
when none qualifies the fallback is position `0` with the path head.  The
removability test of the provider tour (whose `check_removable` lives in the
absent `tour.rs`) is abstracted as a predicate. -/
def fitSubsegmentEnd (nw : Network) (removableOk : NodeIdx → Bool)
    (blocker : NodeIdx) (p0 : NodeIdx) (rest : List NodeIdx) : Nat × NodeIdx :=
  ((((p0 :: rest).enum.takeWhile (fun p =>
      decide ((nw.nodeData p.2).endTime ≤ (nw.nodeData blocker).startTime))).filter
      (fun p => nw.canReach p.2 blocker)).filter
      (fun p => removableOk p.2)).getLast?.getD (0, p0)

theorem findFirstNotReaching_some (nw : Network) (target : NodeIdx) :
    ∀ (l : List NodeIdx) (i : Nat), findFirstNotReaching nw target l = some i →
      (∃ n, l[i]? = some n ∧ nw.canReach n target = false) ∧
      ∀ j n, j < i → l[j]? = some n → nw.canReach n target = true := by
  intro l
  induction l with
  | nil => intro i h; simp [findFirstNotReaching] at h
  | cons x xs ih =>
    intro i h
    by_cases hr : nw.canReach x target
    · rw [findFirstNotReaching, if_pos hr] at h
      rcases Option.map_eq_some'.1 h with ⟨i', hi', rfl⟩
      obtain ⟨⟨n, hn, hnr⟩, hmin⟩ := ih i' hi'
      constructor
      · exact ⟨n, by simpa using hn, hnr⟩
      · intro j m hj hm
        cases j with
        | zero =>
          simp at hm
          rw [← hm]
          exact hr
        | succ j' =>
          exact hmin j' m (by omega) (by simpa using hm)
    · rw [findFirstNotReaching, if_neg hr] at h
      have hi : i = 0 := by simpa using h.symm
      subst hi
      constructor
      · exact ⟨x, by simp, by simpa using hr⟩
      · intro j m hj _
        omega

theorem findFirstNotReaching_none (nw : Network) (target : NodeIdx) :
    ∀ l : List NodeIdx, findFirstNotReaching nw target l = none ↔
      ∀ n ∈ l, nw.canReach n target = true := by
  intro l
  induction l with
  | nil => simp [findFirstNotReaching]
  | cons x xs ih =>
    by_cases hr : nw.canReach x target
    · rw [findFirstNotReaching, if_pos hr]
      constructor
      · intro h n hn
        rcases List.mem_cons.1 hn with rfl | hn'
        · exact hr
        · refine (ih.1 ?_) n hn'
          cases hx : findFirstNotReaching nw target xs with
          | none => rfl
          | some i => rw [hx] at h; simp at h
      · intro h
        have hnone : findFirstNotReaching nw target xs = none :=
          ih.2 (fun n hn => h n (List.mem_cons.2 (Or.inr hn)))
        rw [hnone]
        rfl
    · rw [findFirstNotReaching, if_neg hr]
      constructor
      · intro h
        exact absurd h (by simp)
      · intro h
        exact absurd (h x (List.mem_cons.2 (Or.inl rfl))) hr

theorem fitSubsegmentEnd_spec (nw : Network) (removableOk : NodeIdx → Bool)
    (blocker : NodeIdx) (p0 : NodeIdx) (rest : List NodeIdx) :
    fitSubsegmentEnd nw removableOk blocker p0 rest = (0, p0) ∨
      ((nw.nodeData (fitSubsegmentEnd nw removableOk blocker p0 rest).2).endTime ≤
          (nw.nodeData blocker).startTime ∧
        nw.canReach (fitSubsegmentEnd nw removableOk blocker p0 rest).2 blocker = true ∧
        removableOk (fitSubsegmentEnd nw removableOk blocker p0 rest).2 = true) := by
  unfold fitSubsegmentEnd
  cases hg : ((((p0 :: rest).enum.takeWhile (fun p =>
      decide ((nw.nodeData p.2).endTime ≤ (nw.nodeData blocker).startTime))).filter
      (fun p => nw.canReach p.2 blocker)).filter
      (fun p => removableOk p.2)).getLast? with
  | none => left; simp [hg]
  | some p =>
    right
    have hpmem : p ∈ (((p0 :: rest).enum.takeWhile (fun p =>
        decide ((nw.nodeData p.2).endTime ≤ (nw.nodeData blocker).startTime))).filter
        (fun p => nw.canReach p.2 blocker)).filter
        (fun p => removableOk p.2) := by
      obtain ⟨hne, heq⟩ := List.mem_getLast?_eq_getLast (Option.mem_def.2 hg)
      rw [heq]
      exact List.getLast_mem hne
    have h1 := List.mem_filter.1 hpmem
    have h2 := List.mem_filter.1 h1.1
    have h3 := List.mem_takeWhile_imp h2.1
    simp only [hg, Option.getD_some]
    refine ⟨by simpa using h3, h2.2, h1.2⟩

/-- C8: on the spec-modelled tour query, `latest_not_reaching_node(T, t)`
returns the smallest position of `T` whose node cannot reach `t` (every
earlier node reaches `t`), and `None` exactly when every node of the tour
reaches `t`; moreover fit-insertion uses this position as the blocker: the
blocker itself cannot reach the segment start, and the sub-segment end
chosen by `fit_path_into_tour` either is the fallback head or arrives before
the blocker departs, reaches the blocker and keeps the provider segment
removable. -/
theorem c8_latest_not_reaching_and_fit_blocker (nw : Network) (t : Tour)
    (target : NodeIdx) :
    (∀ i, t.latestNotReachingNode nw target = some i →
      (∃ n, t.nthNode i = some n ∧ nw.canReach n target = false) ∧
      ∀ j n, j < i → t.nthNode j = some n → nw.canReach n target = true) ∧
    (t.latestNotReachingNode nw target = none ↔
      ∀ n ∈ t.nodes, nw.canReach n target = true) ∧
    (∀ pos blocker (removableOk : NodeIdx → Bool) (p0 : NodeIdx)
        (rest : List NodeIdx),
      t.latestNotReachingNode nw target = some pos →
      t.nthNode pos = some blocker →
      nw.canReach blocker target = false ∧
      (fitSubsegmentEnd nw removableOk blocker p0 rest = (0, p0) ∨
        ((nw.nodeData (fitSubsegmentEnd nw removableOk blocker p0 rest).2).endTime ≤
            (nw.nodeData blocker).startTime ∧
          nw.canReach (fitSubsegmentEnd nw removableOk blocker p0 rest).2 blocker
            = true ∧
          removableOk (fitSubsegmentEnd nw removableOk blocker p0 rest).2 = true))) := by
  refine ⟨?_, ?_, ?_⟩
  · intro i h
    exact findFirstNotReaching_some nw target t.nodes i h
  · exact findFirstNotReaching_none nw target t.nodes
  · intro pos blocker removableOk p0 rest hpos hblocker
    obtain ⟨⟨n, hn, hnr⟩, _⟩ := findFirstNotReaching_some nw target t.nodes pos hpos
    have hb : n = blocker := by
      rw [Tour.nthNode] at hblocker
      rw [hblocker] at hn
      exact (Option.some.injEq _ _ ▸ hn).symm
    constructor
    · rw [← hb]
      exact hnr
    · exact fitSubsegmentEnd_spec nw removableOk blocker p0 rest

/-- C8 witness: on the three-node tour of the one-trip network with target
`service 0`, the blocker search returns position 1 (the service node itself
cannot reach the target, the start depot before it can), and the fit
selection falls back to the path head. -/
theorem c8_latest_not_reaching_and_fit_blocker_witness :
    nwOne.canReach (NodeIdx.service 0) (NodeIdx.service 0) = false ∧
    (fitSubsegmentEnd nwOne (fun _ => true) (NodeIdx.service 0) (NodeIdx.service 0) []
        = (0, NodeIdx.service 0) ∨
      ((nwOne.nodeData (fitSubsegmentEnd nwOne (fun _ => true) (NodeIdx.service 0)
          (NodeIdx.service 0) []).2).endTime ≤
          (nwOne.nodeData (NodeIdx.service 0)).startTime ∧
        nwOne.canReach (fitSubsegmentEnd nwOne (fun _ => true) (NodeIdx.service 0)
          (NodeIdx.service 0) []).2 (NodeIdx.service 0) = true ∧
        (fun _ => true) (fitSubsegmentEnd nwOne (fun _ => true) (NodeIdx.service 0)
          (NodeIdx.service 0) []).2 = true)) :=
  (c8_latest_not_reaching_and_fit_blocker nwOne
      (Tour.mk [NodeIdx.startDepot 0, NodeIdx.service 0, NodeIdx.endDepot 0] false)
      (NodeIdx.service 0)).2.2 1 (NodeIdx.service 0) (fun _ => true)
    (NodeIdx.service 0) [] (by decide) (by decide)

/-! ## C3: error behavior of spawn_vehicle_for_path -/

theorem mem_of_head?_eq_some {α : Type} {l : List α} {a : α}
    (h : l.head? = some a) : a ∈ l := by
  cases l with
  | nil => cases h
  | cons x xs =>
    simp only [List.head?, Option.some.injEq] at h
    exact List.mem_cons.2 (Or.inl h.symm)

theorem unwrapO_some {α : Type} (a : α) (msg : String) :
    unwrapO (some a) msg = Except.ok a := rfl

theorem TourNew_ok_nodes (nw : Network) (L : List NodeIdx) (t : Tour)
    (h : Tour.new nw L = Except.ok t) : t = ⟨L, false⟩ := by
  unfold Tour.new at h
  by_cases h1 : chainReach nw L
  · rw [if_pos h1] at h
    by_cases h2 : tourDepotStructure L
    · rw [if_pos h2] at h
      exact (Except.ok.injEq _ _ ▸ h).symm
    · rw [if_neg h2] at h
      cases h
  · rw [if_neg h1] at h
    cases h

theorem TourNew_error_failure (nw : Network) (L : List NodeIdx) (e : RunError)
    (h : Tour.new nw L = Except.error e) : ∃ msg, e = RunError.failure msg := by
  unfold Tour.new at h
  by_cases h1 : chainReach nw L
  · rw [if_pos h1] at h
    by_cases h2 : tourDepotStructure L
    · rw [if_pos h2] at h; cases h
    · rw [if_neg h2] at h
      exact ⟨_, (Except.error.injEq _ _ ▸ h).symm⟩
  · rw [if_neg h1] at h
    exact ⟨_, (Except.error.injEq _ _ ▸ h).symm⟩

theorem unwrapE_ok {α : Type} (a : α) : unwrapE (Except.ok a) = Except.ok a := rfl

theorem updateTrainFormation_receiver_ok (S : Schedule) (veh : Vehicle) :
    ∀ (L : List NodeIdx) (acc : List (NodeIdx × TrainFormation)),
      (∀ n ∈ L, n.isDepot = false → (alookup S.trainFormations n).isSome = true) →
      ∃ r, S.updateTrainFormation acc none (some veh) L = Except.ok r := by
  intro L
  induction L with
  | nil => intro acc _; exact ⟨acc, rfl⟩
  | cons n rest ih =>
    intro acc h
    by_cases hdep : n.isDepot
    · obtain ⟨r, hr⟩ := ih acc (fun m hm => h m (List.mem_cons.2 (Or.inr hm)))
      refine ⟨r, ?_⟩
      simp only [Schedule.updateTrainFormation, hdep, if_true]
      exact hr
    · have hsome := h n (List.mem_cons.2 (Or.inl rfl)) (by simpa using hdep)
      cases htf : alookup S.trainFormations n with
      | none => rw [htf] at hsome; simp at hsome
      | some tf =>
        have hrep : ∃ tf2, S.vehicleReplacementInTrainFormation none (some veh) n
            = Except.ok tf2 := by
          by_cases hd : S.isDummy veh.id
          · refine ⟨tf, ?_⟩
            unfold Schedule.vehicleReplacementInTrainFormation
            rw [htf]
            simp [unwrapO_some, exceptBind_ok, hd]
          · refine ⟨tf.addAtTail veh, ?_⟩
            unfold Schedule.vehicleReplacementInTrainFormation
            rw [htf]
            simp [unwrapO_some, exceptBind_ok, hd]
        obtain ⟨tf2, htf2⟩ := hrep
        obtain ⟨r, hr⟩ := ih (ainsert acc n tf2)
          (fun m hm => h m (List.mem_cons.2 (Or.inr hm)))
        refine ⟨r, ?_⟩
        simp only [Schedule.updateTrainFormation, hdep, Bool.false_eq_true,
          if_false, htf2, unwrapE_ok, exceptBind_ok]
        exact hr

theorem updateDepotUsage_fresh (S : Schedule) (nw : Network) (vid : VehicleId)
    (veh : Vehicle) (hid : veh.id = vid)
    (hfreshVeh : S.isVehicle vid = false)
    (hfreshTour : alookup S.tours vid = none) :
    S.updateDepotUsage nw S.depotUsage (ainsert S.vehicles vid veh) S.tours
      vid = Except.ok S.depotUsage := by
  unfold Schedule.updateDepotUsage
  rw [alookup_ainsert_self]
  unfold Schedule.updateDepotUsageAssumingNoDummies
  rw [hfreshTour]
  simp only [exceptPure_eq, exceptBind_ok]
  unfold Schedule.updateDepotUsageForNewStartDepot
    Schedule.updateDepotUsageForNewEndDepot
  simp only [hid, hfreshVeh, Bool.false_eq_true, if_false, exceptPure_eq,
    exceptBind_ok]

theorem spawn_error_of_addSuitable (S : Schedule) (nw : Network)
    (vts : VehicleTypes) (vt : VehicleTypeIdx) (path : List NodeIdx)
    (e : RunError) (h : S.addSuitableStartAndEndDepotToPath nw vt path
      = Except.error e) :
    S.spawnVehicleForPath nw vts vt path = Except.error e := by
  simp only [Schedule.spawnVehicleForPath, h, exceptBind_err]

theorem spawn_error_of_tour_new (S : Schedule) (nw : Network)
    (vts : VehicleTypes) (vt : VehicleTypeIdx) (path : List NodeIdx)
    (L : List NodeIdx) (e : RunError)
    (hnodes : S.addSuitableStartAndEndDepotToPath nw vt path = Except.ok L)
    (htour : Tour.new nw L = Except.error e) :
    S.spawnVehicleForPath nw vts vt path = Except.error e := by
  simp only [Schedule.spawnVehicleForPath, hnodes, exceptBind_ok, htour,
    exceptBind_err]

theorem spawn_ok_of_pieces (S : Schedule) (nw : Network) (vts : VehicleTypes)
    (vt : VehicleTypeIdx) (path : List NodeIdx) (L : List NodeIdx) (t : Tour)
    (hnodes : S.addSuitableStartAndEndDepotToPath nw vt path = Except.ok L)
    (htour : Tour.new nw L = Except.ok t)
    (hcov : ∀ n ∈ L, n.isDepot = false → (alookup S.trainFormations n).isSome = true)
    (hfreshVeh : S.isVehicle (VehicleId.vehicle S.vehicleCounter) = false)
    (hfreshTour : alookup S.tours (VehicleId.vehicle S.vehicleCounter) = none) :
    ∃ S2, S.spawnVehicleForPath nw vts vt path = Except.ok S2 := by
  have ht := TourNew_ok_nodes nw L t htour
  obtain ⟨r, hTF⟩ := updateTrainFormation_receiver_ok S
    ⟨VehicleId.vehicle S.vehicleCounter, vt, vts.seatsOf vt⟩ t.nodes
    S.trainFormations (by rw [ht]; exact hcov)
  have hupd := updateDepotUsage_fresh S nw (VehicleId.vehicle S.vehicleCounter)
    ⟨VehicleId.vehicle S.vehicleCounter, vt, vts.seatsOf vt⟩ rfl hfreshVeh
    hfreshTour
  have hisOk : (S.spawnVehicleForPath nw vts vt path).isOk = true := by
    simp only [Schedule.spawnVehicleForPath, hnodes, exceptBind_ok, htour, hTF,
      hupd, exceptPure_eq, Except.isOk, Except.toBool]
  cases hs : S.spawnVehicleForPath nw vts vt path with
  | ok S2 => exact ⟨S2, rfl⟩
  | error e => rw [hs] at hisOk; simp [Except.isOk, Except.toBool] at hisOk

/-- Evaluation of `add_suitable_start_and_end_depot_to_path` on a path that
starts with a non-depot node, case: no start depot with capacity. -/
theorem addSuitable_eval_start_none (S : Schedule) (nw : Network)
    (vt : VehicleTypeIdx) (path : List NodeIdx) (first lastN : NodeIdx)
    (hhead : path.head? = some first) (hlast : path.getLast? = some lastN)
    (hfirst : first.isDepot = false)
    (hfind : (nw.startDepotsSortedTo (nw.nodeData first).startLocation).find?
      (fun d => S.canDepotSpawnVehicle nw d vt) = none) :
    S.addSuitableStartAndEndDepotToPath nw vt path
      = Except.error (RunError.failure "NoStartDepotAvailable") := by
  unfold Schedule.addSuitableStartAndEndDepotToPath
  rw [hhead, hlast]
  simp only [unwrapO_some, exceptBind_ok, hfirst, Bool.false_and,
    Bool.not_false, if_true, Bool.false_eq_true, if_false]
  simp [Schedule.findBestStartDepotForSpawning, hfind, exceptBind_err]

/-- Case: a start depot is found and the path already ends at a depot. -/
theorem addSuitable_eval_last_depot (S : Schedule) (nw : Network)
    (vt : VehicleTypeIdx) (path : List NodeIdx) (first lastN sd : NodeIdx)
    (hhead : path.head? = some first) (hlast : path.getLast? = some lastN)
    (hfirst : first.isDepot = false)
    (hfind : (nw.startDepotsSortedTo (nw.nodeData first).startLocation).find?
      (fun d => S.canDepotSpawnVehicle nw d vt) = some sd)
    (hld : lastN.isDepot = true) :
    S.addSuitableStartAndEndDepotToPath nw vt path = Except.ok (sd :: path) := by
  unfold Schedule.addSuitableStartAndEndDepotToPath
  rw [hhead, hlast]
  simp only [unwrapO_some, exceptBind_ok, hfirst, Bool.false_and,
    Bool.not_false, if_true, Bool.false_eq_true, if_false]
  simp [Schedule.findBestStartDepotForSpawning, hfind, hld, exceptBind_ok,
    exceptPure_eq]

/-- Case: a start depot is found, the path does not end at a depot, and the
network has no end depot. -/
theorem addSuitable_eval_end_none (S : Schedule) (nw : Network)
    (vt : VehicleTypeIdx) (path : List NodeIdx) (first lastN sd : NodeIdx)
    (hhead : path.head? = some first) (hlast : path.getLast? = some lastN)
    (hfirst : first.isDepot = false)
    (hfind : (nw.startDepotsSortedTo (nw.nodeData first).startLocation).find?
      (fun d => S.canDepotSpawnVehicle nw d vt) = some sd)
    (hld : lastN.isDepot = false)
    (hend : (nw.endDepotsSortedFrom (nw.nodeData lastN).endLocation).head?
      = none) :
    S.addSuitableStartAndEndDepotToPath nw vt path
      = Except.error (RunError.failure "NoEndDepotAvailable") := by
  unfold Schedule.addSuitableStartAndEndDepotToPath
  rw [hhead, hlast]
  simp only [unwrapO_some, exceptBind_ok, hfirst, Bool.false_and,
    Bool.not_false, if_true, Bool.false_eq_true, if_false]
  simp [Schedule.findBestStartDepotForSpawning,
    Schedule.findBestEndDepotForDespawning, hfind, hend, hld, exceptBind_ok,
    exceptBind_err]

/-- Case: a start depot is found, the path does not end at a depot, and the
nearest end depot is appended. -/
theorem addSuitable_eval_end_some (S : Schedule) (nw : Network)
    (vt : VehicleTypeIdx) (path : List NodeIdx) (first lastN sd ed : NodeIdx)
    (hhead : path.head? = some first) (hlast : path.getLast? = some lastN)
    (hfirst : first.isDepot = false)
    (hfind : (nw.startDepotsSortedTo (nw.nodeData first).startLocation).find?
      (fun d => S.canDepotSpawnVehicle nw d vt) = some sd)
    (hld : lastN.isDepot = false)
    (hend : (nw.endDepotsSortedFrom (nw.nodeData lastN).endLocation).head?
      = some ed) :
    S.addSuitableStartAndEndDepotToPath nw vt path
      = Except.ok (sd :: path ++ [ed]) := by
  unfold Schedule.addSuitableStartAndEndDepotToPath
  rw [hhead, hlast]
  simp only [unwrapO_some, exceptBind_ok, hfirst, Bool.false_and,
    Bool.not_false, if_true, Bool.false_eq_true, if_false]
  simp [Schedule.findBestStartDepotForSpawning,
    Schedule.findBestEndDepotForDespawning, hfind, hend, hld, exceptBind_ok,
    exceptPure_eq]

/-- C3 counterexample: on `nwTwo` the start depot has unbounded spawn
capacity, the path is non-empty and starts with a non-depot node, yet
`spawn_vehicle_for_path` errors because the assembled tour fails validation
(the second service trip is unreachable from the first); so an error does not
occur exactly when no start depot has remaining capacity. -/
theorem c3_counterexample_error_despite_capacity :
    (Schedule.empty nwTwo).canDepotSpawnVehicle nwTwo (NodeIdx.startDepot 0) 0 = true ∧
    NodeIdx.startDepot 0 ∈ nwTwo.startDepots ∧
    (NodeIdx.service 0).isDepot = false ∧
    (Schedule.empty nwTwo).spawnVehicleForPath nwTwo vtsOne 0
        [NodeIdx.service 0, NodeIdx.service 1]
      = Except.error (RunError.failure "NotReachable") :=
  ⟨rfl, by decide, rfl, rfl⟩

/-- C3 (amended): for a non-empty path starting with a non-depot node, on a
well-formed schedule (every non-depot path node has a formation entry, the
fresh vehicle id is unused, the sorted depot iterators yield depot nodes),
`spawn_vehicle_for_path` never panics and leaves the receiver untouched (the
operation is a pure function of the receiver), and it returns an error
exactly when no start depot has remaining spawn capacity for the type, or
the path does not end at a depot and the network has no end depot, or the
assembled depot-path-depot sequence fails tour validation. -/
theorem c3_spawn_error_characterization (S : Schedule) (nw : Network)
    (vts : VehicleTypes) (vt : VehicleTypeIdx) (path : List NodeIdx)
    (first lastN : NodeIdx)
    (hhead : path.head? = some first) (hlast : path.getLast? = some lastN)
    (hfirst : first.isDepot = false)
    (hcover : ∀ n ∈ path, n.isDepot = false →
      (alookup S.trainFormations n).isSome = true)
    (hsd : ∀ loc d, d ∈ nw.startDepotsSortedTo loc → d.isDepot = true)
    (hed : ∀ loc d, d ∈ nw.endDepotsSortedFrom loc → d.isDepot = true)
    (hfreshVeh : S.isVehicle (VehicleId.vehicle S.vehicleCounter) = false)
    (hfreshTour : alookup S.tours (VehicleId.vehicle S.vehicleCounter) = none) :
    (∀ msg, S.spawnVehicleForPath nw vts vt path
      ≠ Except.error (RunError.panicked msg)) ∧
    ((∃ e, S.spawnVehicleForPath nw vts vt path = Except.error e) ↔
      ((nw.startDepotsSortedTo (nw.nodeData first).startLocation).find?
          (fun d => S.canDepotSpawnVehicle nw d vt) = none ∨
        (lastN.isDepot = false ∧
          (nw.endDepotsSortedFrom (nw.nodeData lastN).endLocation).head? = none) ∨
        (∃ nodes msg,
          S.addSuitableStartAndEndDepotToPath nw vt path = Except.ok nodes ∧
          Tour.new nw nodes = Except.error (RunError.failure msg)))) := by
  rcases Option.eq_none_or_eq_some
      ((nw.startDepotsSortedTo (nw.nodeData first).startLocation).find?
        (fun d => S.canDepotSpawnVehicle nw d vt)) with hfind | ⟨sd, hfind⟩
  · have haddEval := addSuitable_eval_start_none S nw vt path first lastN hhead
      hlast hfirst hfind
    have hspawn := spawn_error_of_addSuitable S nw vts vt path _ haddEval
    constructor
    · intro msg hmsg
      rw [hspawn] at hmsg
      simp at hmsg
    · exact iff_of_true ⟨_, hspawn⟩ (Or.inl hfind)
  · have hsdDep : sd.isDepot = true :=
      hsd _ _ (List.mem_of_find?_eq_some hfind)
    -- helper finishing the proof once the assembled node list is fixed
    have main : ∀ L : List NodeIdx,
        S.addSuitableStartAndEndDepotToPath nw vt path = Except.ok L →
        (∀ n ∈ L, n.isDepot = false →
          (alookup S.trainFormations n).isSome = true) →
        (lastN.isDepot = true ∨
          ∃ ed, (nw.endDepotsSortedFrom (nw.nodeData lastN).endLocation).head?
            = some ed) →
        (∀ msg, S.spawnVehicleForPath nw vts vt path
          ≠ Except.error (RunError.panicked msg)) ∧
        ((∃ e, S.spawnVehicleForPath nw vts vt path = Except.error e) ↔
          ((nw.startDepotsSortedTo (nw.nodeData first).startLocation).find?
              (fun d => S.canDepotSpawnVehicle nw d vt) = none ∨
            (lastN.isDepot = false ∧
              (nw.endDepotsSortedFrom
                (nw.nodeData lastN).endLocation).head? = none) ∨
            (∃ nodes msg,
              S.addSuitableStartAndEndDepotToPath nw vt path = Except.ok nodes ∧
              Tour.new nw nodes = Except.error (RunError.failure msg)))) := by
      intro L hnodes hcovL hendOk
      cases htour : Tour.new nw L with
      | error e =>
        obtain ⟨msg, rfl⟩ := TourNew_error_failure nw L e htour
        have hspawn := spawn_error_of_tour_new S nw vts vt path L _ hnodes htour
        constructor
        · intro msg2 hmsg
          rw [hspawn] at hmsg
          simp at hmsg
        · exact iff_of_true ⟨_, hspawn⟩
            (Or.inr (Or.inr ⟨L, msg, hnodes, htour⟩))
      | ok t =>
        obtain ⟨S2, hspawn⟩ := spawn_ok_of_pieces S nw vts vt path L t hnodes
          htour hcovL hfreshVeh hfreshTour
        constructor
        · intro msg hmsg
          rw [hspawn] at hmsg
          cases hmsg
        · refine iff_of_false ?_ ?_
          · rintro ⟨e, he⟩
            rw [hspawn] at he
            cases he
          · rintro (h1 | ⟨h2a, h2b⟩ | ⟨nodes, msg, hn, htour2⟩)
            · rw [hfind] at h1; cases h1
            · rcases hendOk with hld | ⟨ed, hend⟩
              · rw [hld] at h2a; cases h2a
              · rw [hend] at h2b; cases h2b
            · rw [hnodes] at hn
              have : nodes = L := (Except.ok.injEq _ _ ▸ hn).symm
              rw [this, htour] at htour2
              cases htour2
    by_cases hld : lastN.isDepot
    · have haddEval := addSuitable_eval_last_depot S nw vt path first lastN sd
        hhead hlast hfirst hfind hld
      refine main (sd :: path) haddEval ?_ (Or.inl hld)
      intro n hn hnd
      rcases List.mem_cons.1 hn with rfl | hn'
      · rw [hsdDep] at hnd; cases hnd
      · exact hcover n hn' hnd
    · have hldf : lastN.isDepot = false := by simpa using hld
      rcases Option.eq_none_or_eq_some
          ((nw.endDepotsSortedFrom (nw.nodeData lastN).endLocation).head?)
        with hend | ⟨ed, hend⟩
      · have haddEval := addSuitable_eval_end_none S nw vt path first lastN sd
          hhead hlast hfirst hfind hldf hend
        have hspawn := spawn_error_of_addSuitable S nw vts vt path _ haddEval
        constructor
        · intro msg hmsg
          rw [hspawn] at hmsg
          simp at hmsg
        · exact iff_of_true ⟨_, hspawn⟩ (Or.inr (Or.inl ⟨hldf, hend⟩))
      · have haddEval := addSuitable_eval_end_some S nw vt path first lastN sd
          ed hhead hlast hfirst hfind hldf hend
        have hedDep : ed.isDepot = true :=
          hed _ _ (mem_of_head?_eq_some hend)
        refine main (sd :: path ++ [ed]) haddEval ?_ (Or.inr ⟨ed, hend⟩)
        intro n hn hnd
        rcases List.mem_cons.1 hn with rfl | hn'
        · rw [hsdDep] at hnd; cases hnd
        · rcases List.mem_append.1 hn' with hp | hb
          · exact hcover n hp hnd
          · have : n = ed := by simpa using hb
            rw [this, hedDep] at hnd
            cases hnd

/-- C3 witness: on the two-trip network the characterization applies with
the unreachable path, and the error side of the equivalence is realized
through the failing tour validation. -/
theorem c3_spawn_error_characterization_witness :
    ∃ e, (Schedule.empty nwTwo).spawnVehicleForPath nwTwo vtsOne 0
      [NodeIdx.service 0, NodeIdx.service 1] = Except.error e :=
  (c3_spawn_error_characterization (Schedule.empty nwTwo) nwTwo vtsOne 0
      [NodeIdx.service 0, NodeIdx.service 1] (NodeIdx.service 0)
      (NodeIdx.service 1) rfl rfl rfl (by decide)
      (by intro loc d hd
          simp only [nwTwo] at hd
          rcases List.mem_cons.1 hd with rfl | h
          · rfl
          · cases h)
      (by intro loc d hd
          simp only [nwTwo] at hd
          rcases List.mem_cons.1 hd with rfl | h
          · rfl
          · cases h)
      rfl rfl).2.mpr
    (Or.inr (Or.inr ⟨[NodeIdx.startDepot 0, NodeIdx.service 0, NodeIdx.service 1,
      NodeIdx.endDepot 0], "NotReachable", by decide, by decide⟩))

/-! ## C6: idempotence of reassign_end_depots_greedily

The development below analyses one pass of the greedy end-depot
reassignment and shows that a second pass recomputes the same nearest end
depot for every vehicle and leaves the tours (and hence the schedule, under
its own equality) unchanged. -/

theorem vlt_irrefl (v : VehicleId) : VehicleId.lt v v = false := by
  cases v <;> simp [VehicleId.lt]

theorem mem_sinsert_self (l : List VehicleId) (v : VehicleId) :
    v ∈ sinsert l v := by
  induction l with
  | nil => simp [sinsert]
  | cons x rest ih =>
    by_cases h1 : VehicleId.lt v x
    · simp [sinsert, h1]
    · by_cases h2 : v = x
      · subst h2
        simp [sinsert, vlt_irrefl]
      · simp only [sinsert, h1, Bool.false_eq_true, if_false, h2]
        exact List.mem_cons.2 (Or.inr ih)

theorem mem_sinsert_ne (l : List VehicleId) (v w : VehicleId) (h : v ≠ w) :
    v ∈ sinsert l w ↔ v ∈ l := by
  induction l with
  | nil => simp [sinsert, h]
  | cons x rest ih =>
    by_cases h1 : VehicleId.lt w x
    · simp only [sinsert, h1, if_true]
      constructor
      · intro hm
        rcases List.mem_cons.1 hm with rfl | hm'
        · exact absurd rfl h
        · exact hm'
      · intro hm
        exact List.mem_cons.2 (Or.inr hm)
    · by_cases h2 : w = x
      · subst h2
        simp [sinsert, vlt_irrefl, List.mem_cons]
      · simp only [sinsert, h1, Bool.false_eq_true, if_false, h2,
          List.mem_cons, ih]

theorem mem_sremove_ne (l l' : List VehicleId) (v w : VehicleId)
    (h : sremove l w = some l') (hne : v ≠ w) :
    v ∈ l' ↔ v ∈ l := by
  induction l generalizing l' with
  | nil => cases h
  | cons x rest ih =>
    by_cases h1 : w = x
    · rw [sremove, if_pos h1] at h
      have hl : l' = rest := by simpa using h.symm
      subst hl
      have hvx : v ≠ x := fun hx => hne (hx.trans h1.symm)
      simp [List.mem_cons, hvx]
    · rw [sremove, if_neg h1] at h
      rcases Option.map_eq_some'.1 h with ⟨r', hr', rfl⟩
      simp [List.mem_cons, ih r' hr']

theorem sremove_isSome_of_mem (l : List VehicleId) (v : VehicleId)
    (h : v ∈ l) : ∃ l', sremove l v = some l' := by
  induction l with
  | nil => cases h
  | cons x rest ih =>
    by_cases h1 : v = x
    · exact ⟨rest, by rw [sremove, if_pos h1]⟩
    · have hm : v ∈ rest := by
        rcases List.mem_cons.1 h with rfl | hm'
        · exact absurd rfl h1
        · exact hm'
      obtain ⟨l', hl'⟩ := ih hm
      refine ⟨x :: l', ?_⟩
      rw [sremove, if_neg h1, hl']
      rfl

/-- A depot-usage lookup either has no entry at the key or lists the vehicle
among the spawned vehicles; this is the precondition under which the
`and_modify` remove of `update_depot_usage_for_new_start_depot` does not
panic. -/
def spawnedOk (u : DepotUsage) (k : DepotIdx × VehicleTypeIdx)
    (v : VehicleId) : Prop :=
  alookup u k = none ∨
    ∃ sets, alookup u k = some sets ∧ v ∈ sets.1

/-- Symmetric condition on the despawned component. -/
def despawnedOk (u : DepotUsage) (k : DepotIdx × VehicleTypeIdx)
    (v : VehicleId) : Prop :=
  alookup u k = none ∨
    ∃ sets, alookup u k = some sets ∧ v ∈ sets.2

theorem alookup_ainsert {κ ν : Type} [DecidableEq κ] (m : List (κ × ν))
    (k k' : κ) (v : ν) :
    alookup (ainsert m k v) k' = if k' = k then some v else alookup m k' := by
  by_cases h : k' = k
  · rw [if_pos h, h, alookup_ainsert_self]
  · rw [if_neg h, alookup_ainsert_ne m k k' v (fun he => h he.symm)]

/-- Inversion of a successful `replace_end_depot`. -/
theorem replaceEndDepot_inversion (nw : Network) (t : Tour) (d : NodeIdx)
    (t' : Tour) (h : t.replaceEndDepot nw d = Except.ok t') :
    d.isEndDepot = true ∧
    (∃ z, t.endDepotNode = some z) ∧
    (∃ prev, t.nodes.dropLast.getLast? = some prev ∧
      nw.canReach prev d = true) ∧
    t' = ⟨t.nodes.dropLast ++ [d], t.isDummyTour⟩ := by
  unfold Tour.replaceEndDepot at h
  by_cases hd : d.isEndDepot
  · rw [hd] at h
    simp only [Bool.not_true, Bool.false_eq_true, if_false] at h
    cases hz : t.endDepotNode with
    | none => rw [hz] at h; simp at h
    | some z =>
      rw [hz] at h
      cases hp : t.nodes.dropLast.getLast? with
      | none => rw [hp] at h; simp at h
      | some prev =>
        rw [hp] at h
        by_cases hr : nw.canReach prev d
        · simp only [hr, if_true] at h
          exact ⟨hd, ⟨z, rfl⟩, ⟨prev, rfl, hr⟩, (Except.ok.injEq _ _ ▸ h).symm⟩
        · have hrf : nw.canReach prev d = false := by simpa using hr
          simp [hrf] at h
  · have hd' : d.isEndDepot = false := by simpa using hd
    rw [hd'] at h
    simp only [Bool.not_false, if_true] at h
    cases h

theorem isDepot_of_isEndDepot (n : NodeIdx) (h : n.isEndDepot = true) :
    n.isDepot = true := by
  cases n <;> simp_all [NodeIdx.isEndDepot, NodeIdx.isDepot]

/-- The last non-depot node of a node list ending in a depot is found in the
prefix before the depot. -/
theorem lastNonDepot_concat (A : List NodeIdx) (d : NodeIdx) (b : Bool)
    (hd : d.isDepot = true) :
    Tour.lastNonDepot ⟨A ++ [d], b⟩
      = A.reverse.find? (fun n => !n.isDepot) := by
  unfold Tour.lastNonDepot
  simp [List.reverse_append, List.find?, hd]

/-- The nodes of the result of a successful replace, reconstructed. -/
theorem endDepotNode_concat (A : List NodeIdx) (d : NodeIdx) (b : Bool)
    (hd : d.isEndDepot = true) :
    Tour.endDepotNode ⟨A ++ [d], b⟩ = some d := by
  unfold Tour.endDepotNode
  simp [List.getLast?_concat, hd]

/-- Replacing the end depot by the depot it already ends in is the
identity. -/
theorem replaceEndDepot_self (nw : Network) (A : List NodeIdx) (d : NodeIdx)
    (b : Bool) (hd : d.isEndDepot = true) (prev : NodeIdx)
    (hprev : A.getLast? = some prev) (hr : nw.canReach prev d = true) :
    Tour.replaceEndDepot nw ⟨A ++ [d], b⟩ d = Except.ok ⟨A ++ [d], b⟩ := by
  unfold Tour.replaceEndDepot
  simp only [hd, Bool.not_true, Bool.false_eq_true, if_false,
    endDepotNode_concat A d b hd, List.dropLast_concat, hprev, hr, if_true]

/-- The data the first pass computes for a vehicle: its tour in `S`, the
last non-depot node, the nearest end depot and the replaced tour.  All of it
depends only on `S`, the network and the vehicle. -/
def vehData (S : Schedule) (nw : Network) (v : VehicleId) (t1 : Tour) : Prop :=
  ∃ tv lastNd d,
    S.tourOf v = Except.ok tv ∧
    tv.lastNonDepot = some lastNd ∧
    (nw.endDepotsSortedFrom (nw.nodeData lastNd).endLocation).head? = some d ∧
    tv.replaceEndDepot nw d = Except.ok t1

theorem vehData_unique (S : Schedule) (nw : Network) (v : VehicleId)
    (a b : Tour) (ha : vehData S nw v a) (hb : vehData S nw v b) : a = b := by
  obtain ⟨tv, l1, d1, h1, h2, h3, h4⟩ := ha
  obtain ⟨tw, l2, d2, g1, g2, g3, g4⟩ := hb
  have htv : tv = tw := by
    rw [h1] at g1
    exact Except.ok.injEq _ _ ▸ g1
  subst htv
  have hl : l1 = l2 := by
    rw [h2] at g2
    exact Option.some.injEq _ _ ▸ g2
  subst hl
  have hdd : d1 = d2 := by
    rw [h3] at g3
    exact Option.some.injEq _ _ ▸ g3
  subst hdd
  rw [h4] at g4
  exact Except.ok.injEq _ _ ▸ g4

/-- Inversion of one loop iteration of `reassign_end_depots_greedily`. -/
theorem reassignStep_inversion (S : Schedule) (nw : Network)
    (t : List (VehicleId × Tour)) (u : DepotUsage) (v : VehicleId)
    (t' : List (VehicleId × Tour)) (u' : DepotUsage)
    (h : S.reassignStep nw (t, u) v = Except.ok (t', u')) :
    ∃ t1, vehData S nw v t1 ∧ t' = ainsert t v t1 ∧
      S.updateDepotUsage nw u S.vehicles (ainsert t v t1) v = Except.ok u' := by
  unfold Schedule.reassignStep at h
  cases htv : S.tourOf v with
  | error e => rw [htv] at h; cases e <;> simp [unwrapE, exceptBind_err] at h
  | ok tv =>
    rw [htv] at h
    simp only [unwrapE_ok, exceptBind_ok] at h
    cases hlnd : tv.lastNonDepot with
    | none => rw [hlnd] at h; simp [unwrapO, exceptBind_err] at h
    | some lastNd =>
      rw [hlnd] at h
      simp only [unwrapO_some, exceptBind_ok] at h
      cases hend : (nw.endDepotsSortedFrom (nw.nodeData lastNd).endLocation).head? with
      | none => rw [hend] at h; simp [exceptBind_err] at h
      | some d =>
        rw [hend] at h
        simp only [exceptBind_ok] at h
        cases hrep : tv.replaceEndDepot nw d with
        | error e => rw [hrep] at h; cases e <;> simp [unwrapE, exceptBind_err] at h
        | ok t1 =>
          rw [hrep] at h
          simp only [unwrapE_ok, exceptBind_ok] at h
          cases hupd : S.updateDepotUsage nw u S.vehicles (ainsert t v t1) v with
          | error e => rw [hupd] at h; simp [exceptBind_err] at h
          | ok u2 =>
            rw [hupd] at h
            simp only [exceptPure_eq, exceptBind_ok, Except.ok.injEq,
              Prod.mk.injEq] at h
            obtain ⟨ht', hu'⟩ := h
            exact ⟨t1, ⟨tv, lastNd, d, htv, hlnd, hend, hrep⟩, ht'.symm,
              hu' ▸ hupd⟩

section UsageLemmas

/-- Inversion of `update_depot_usage_for_new_start_depot`: the intermediate
state is the input or one entry with the vehicle removed from its spawned
set, and the final state adds the vehicle to the new depot entry when the
entry exists. -/
theorem forNewStart_inversion (S' : Schedule) (nw : Network) (u : DepotUsage)
    (veh : Vehicle) (ns : Option NodeIdx) (u' : DepotUsage)
    (h : S'.updateDepotUsageForNewStartDepot nw u veh ns = Except.ok u') :
    ∃ u1, (u1 = u ∨ ∃ k sets sp', alookup u k = some sets ∧
        sremove sets.1 veh.id = some sp' ∧ u1 = ainsert u k (sp', sets.2)) ∧
      ((ns = none → u' = u1) ∧
        ∀ nd, ns = some nd → u' = entryAndModify u1 (nw.depotOf nd, veh.typeId)
          (fun e => (sinsert e.1 veh.id, e.2))) := by
  unfold Schedule.updateDepotUsageForNewStartDepot at h
  by_cases hv : S'.isVehicle veh.id
  · rw [if_pos hv] at h
    cases htv : S'.tourOf veh.id with
    | error e =>
      rw [htv] at h
      cases e <;> simp [unwrapE, exceptBind_err] at h
    | ok tour =>
      rw [htv] at h
      simp only [unwrapE_ok, exceptBind_ok] at h
      cases hsd : tour.startDepotNode with
      | none => rw [hsd] at h; simp [unwrapO, exceptBind_err] at h
      | some sd =>
        rw [hsd] at h
        simp only [unwrapO_some, exceptBind_ok] at h
        unfold entryAndModifyE at h
        cases hlk : alookup u (nw.depotOf sd, veh.typeId) with
        | none =>
          rw [hlk] at h
          simp only [exceptPure_eq, exceptBind_ok] at h
          refine ⟨u, Or.inl rfl, ?_, ?_⟩
          · intro hns
            rw [hns] at h
            simpa using h.symm
          · intro nd hns
            rw [hns] at h
            simpa using h.symm
        | some sets =>
          rw [hlk] at h
          simp only [] at h
          cases hrem : sremove sets.1 veh.id with
          | none => rw [hrem] at h; simp [unwrapO, exceptBind_err] at h
          | some sp' =>
            rw [hrem] at h
            simp only [unwrapO_some, exceptBind_ok, exceptPure_eq] at h
            refine ⟨ainsert u (nw.depotOf sd, veh.typeId) (sp', sets.2),
              Or.inr ⟨_, sets, sp', hlk, hrem, rfl⟩, ?_, ?_⟩
            · intro hns
              rw [hns] at h
              simpa using h.symm
            · intro nd hns
              rw [hns] at h
              simpa using h.symm
  · rw [if_neg hv] at h
    simp only [exceptPure_eq, exceptBind_ok] at h
    refine ⟨u, Or.inl rfl, ?_, ?_⟩
    · intro hns
      rw [hns] at h
      simpa using h.symm
    · intro nd hns
      rw [hns] at h
      simpa using h.symm

/-- Mirror inversion for `update_depot_usage_for_new_end_depot`. -/
theorem forNewEnd_inversion (S' : Schedule) (nw : Network) (u : DepotUsage)
    (veh : Vehicle) (ns : Option NodeIdx) (u' : DepotUsage)
    (h : S'.updateDepotUsageForNewEndDepot nw u veh ns = Except.ok u') :
    ∃ u1, (u1 = u ∨ ∃ k sets de', alookup u k = some sets ∧
        sremove sets.2 veh.id = some de' ∧ u1 = ainsert u k (sets.1, de')) ∧
      ((ns = none → u' = u1) ∧
        ∀ nd, ns = some nd → u' = entryAndModify u1 (nw.depotOf nd, veh.typeId)
          (fun e => (e.1, sinsert e.2 veh.id))) := by
  unfold Schedule.updateDepotUsageForNewEndDepot at h
  by_cases hv : S'.isVehicle veh.id
  · rw [if_pos hv] at h
    cases htv : S'.tourOf veh.id with
    | error e =>
      rw [htv] at h
      cases e <;> simp [unwrapE, exceptBind_err] at h
    | ok tour =>
      rw [htv] at h
      simp only [unwrapE_ok, exceptBind_ok] at h
      cases hsd : tour.endDepotNode with
      | none => rw [hsd] at h; simp [unwrapO, exceptBind_err] at h
      | some ed =>
        rw [hsd] at h
        simp only [unwrapO_some, exceptBind_ok] at h
        unfold entryAndModifyE at h
        cases hlk : alookup u (nw.depotOf ed, veh.typeId) with
        | none =>
          rw [hlk] at h
          simp only [exceptPure_eq, exceptBind_ok] at h
          refine ⟨u, Or.inl rfl, ?_, ?_⟩
          · intro hns
            rw [hns] at h
            simpa using h.symm
          · intro nd hns
            rw [hns] at h
            simpa using h.symm
        | some sets =>
          rw [hlk] at h
          simp only [] at h
          cases hrem : sremove sets.2 veh.id with
          | none => rw [hrem] at h; simp [unwrapO, exceptBind_err] at h
          | some de' =>
            rw [hrem] at h
            simp only [unwrapO_some, exceptBind_ok, exceptPure_eq] at h
            refine ⟨ainsert u (nw.depotOf ed, veh.typeId) (sets.1, de'),
              Or.inr ⟨_, sets, de', hlk, hrem, rfl⟩, ?_, ?_⟩
            · intro hns
              rw [hns] at h
              simpa using h.symm
            · intro nd hns
              rw [hns] at h
              simpa using h.symm
  · rw [if_neg hv] at h
    simp only [exceptPure_eq, exceptBind_ok] at h
    refine ⟨u, Or.inl rfl, ?_, ?_⟩
    · intro hns
      rw [hns] at h
      simpa using h.symm
    · intro nd hns
      rw [hns] at h
      simpa using h.symm

theorem spawnedOk_remove1 (u : DepotUsage) (k0 : DepotIdx × VehicleTypeIdx)
    (sets : List VehicleId × List VehicleId) (sp' : List VehicleId)
    (vid v : VehicleId) (k : DepotIdx × VehicleTypeIdx)
    (h0 : alookup u k0 = some sets) (hrem : sremove sets.1 vid = some sp')
    (hne : v ≠ vid) (h : spawnedOk u k v) :
    spawnedOk (ainsert u k0 (sp', sets.2)) k v := by
  rw [spawnedOk, alookup_ainsert]
  by_cases hk : k = k0
  · rw [if_pos hk]
    rcases h with hnone | ⟨sets2, hsets2, hmem⟩
    · rw [hk, h0] at hnone; cases hnone
    · rw [hk, h0] at hsets2
      have hss : sets = sets2 := by simpa using hsets2
      subst hss
      exact Or.inr ⟨(sp', sets.2), rfl,
        (mem_sremove_ne sets.1 sp' v vid hrem hne).2 hmem⟩
  · rw [if_neg hk]
    exact h

theorem despawnedOk_remove1 (u : DepotUsage) (k0 : DepotIdx × VehicleTypeIdx)
    (sets : List VehicleId × List VehicleId) (sp' : List VehicleId)
    (vid v : VehicleId) (k : DepotIdx × VehicleTypeIdx)
    (h0 : alookup u k0 = some sets)
    (h : despawnedOk u k v) :
    despawnedOk (ainsert u k0 (sp', sets.2)) k v := by
  rw [despawnedOk, alookup_ainsert]
  by_cases hk : k = k0
  · rw [if_pos hk]
    rcases h with hnone | ⟨sets2, hsets2, hmem⟩
    · rw [hk, h0] at hnone; cases hnone
    · rw [hk, h0] at hsets2
      have hss : sets = sets2 := by simpa using hsets2
      subst hss
      exact Or.inr ⟨(sp', sets.2), rfl, hmem⟩
  · rw [if_neg hk]
    exact h

theorem spawnedOk_remove2 (u : DepotUsage) (k0 : DepotIdx × VehicleTypeIdx)
    (sets : List VehicleId × List VehicleId) (de' : List VehicleId)
    (vid v : VehicleId) (k : DepotIdx × VehicleTypeIdx)
    (h0 : alookup u k0 = some sets)
    (h : spawnedOk u k v) :
    spawnedOk (ainsert u k0 (sets.1, de')) k v := by
  rw [spawnedOk, alookup_ainsert]
  by_cases hk : k = k0
  · rw [if_pos hk]
    rcases h with hnone | ⟨sets2, hsets2, hmem⟩
    · rw [hk, h0] at hnone; cases hnone
    · rw [hk, h0] at hsets2
      have hss : sets = sets2 := by simpa using hsets2
      subst hss
      exact Or.inr ⟨(sets.1, de'), rfl, hmem⟩
  · rw [if_neg hk]
    exact h

theorem despawnedOk_remove2 (u : DepotUsage) (k0 : DepotIdx × VehicleTypeIdx)
    (sets : List VehicleId × List VehicleId) (de' : List VehicleId)
    (vid v : VehicleId) (k : DepotIdx × VehicleTypeIdx)
    (h0 : alookup u k0 = some sets) (hrem : sremove sets.2 vid = some de')
    (hne : v ≠ vid) (h : despawnedOk u k v) :
    despawnedOk (ainsert u k0 (sets.1, de')) k v := by
  rw [despawnedOk, alookup_ainsert]
  by_cases hk : k = k0
  · rw [if_pos hk]
    rcases h with hnone | ⟨sets2, hsets2, hmem⟩
    · rw [hk, h0] at hnone; cases hnone
    · rw [hk, h0] at hsets2
      have hss : sets = sets2 := by simpa using hsets2
      subst hss
      exact Or.inr ⟨(sets.1, de'), rfl,
        (mem_sremove_ne sets.2 de' v vid hrem hne).2 hmem⟩
  · rw [if_neg hk]
    exact h

theorem spawnedOk_insert1 (u : DepotUsage) (k0 : DepotIdx × VehicleTypeIdx)
    (vid v : VehicleId) (k : DepotIdx × VehicleTypeIdx) (hne : v ≠ vid)
    (h : spawnedOk u k v) :
    spawnedOk (entryAndModify u k0 (fun e => (sinsert e.1 vid, e.2))) k v := by
  unfold entryAndModify
  cases hlk : alookup u k0 with
  | none => exact h
  | some sets =>
    rw [spawnedOk, alookup_ainsert]
    by_cases hk : k = k0
    · rw [if_pos hk]
      rcases h with hnone | ⟨sets2, hsets2, hmem⟩
      · rw [hk, hlk] at hnone; cases hnone
      · rw [hk, hlk] at hsets2
        have hss : sets = sets2 := by simpa using hsets2
        subst hss
        exact Or.inr ⟨_, rfl, (mem_sinsert_ne sets.1 v vid hne).2 hmem⟩
    · rw [if_neg hk]
      exact h

theorem despawnedOk_insert1 (u : DepotUsage) (k0 : DepotIdx × VehicleTypeIdx)
    (vid v : VehicleId) (k : DepotIdx × VehicleTypeIdx)
    (h : despawnedOk u k v) :
    despawnedOk (entryAndModify u k0 (fun e => (sinsert e.1 vid, e.2))) k v := by
  unfold entryAndModify
  cases hlk : alookup u k0 with
  | none => exact h
  | some sets =>
    rw [despawnedOk, alookup_ainsert]
    by_cases hk : k = k0
    · rw [if_pos hk]
      rcases h with hnone | ⟨sets2, hsets2, hmem⟩
      · rw [hk, hlk] at hnone; cases hnone
      · rw [hk, hlk] at hsets2
        have hss : sets = sets2 := by simpa using hsets2
        subst hss
        exact Or.inr ⟨_, rfl, hmem⟩
    · rw [if_neg hk]
      exact h

theorem spawnedOk_insert2 (u : DepotUsage) (k0 : DepotIdx × VehicleTypeIdx)
    (vid v : VehicleId) (k : DepotIdx × VehicleTypeIdx)
    (h : spawnedOk u k v) :
    spawnedOk (entryAndModify u k0 (fun e => (e.1, sinsert e.2 vid))) k v := by
  unfold entryAndModify
  cases hlk : alookup u k0 with
  | none => exact h
  | some sets =>
    rw [spawnedOk, alookup_ainsert]
    by_cases hk : k = k0
    · rw [if_pos hk]
      rcases h with hnone | ⟨sets2, hsets2, hmem⟩
      · rw [hk, hlk] at hnone; cases hnone
      · rw [hk, hlk] at hsets2
        have hss : sets = sets2 := by simpa using hsets2
        subst hss
        exact Or.inr ⟨_, rfl, hmem⟩
    · rw [if_neg hk]
      exact h

theorem despawnedOk_insert2 (u : DepotUsage) (k0 : DepotIdx × VehicleTypeIdx)
    (vid v : VehicleId) (k : DepotIdx × VehicleTypeIdx) (hne : v ≠ vid)
    (h : despawnedOk u k v) :
    despawnedOk (entryAndModify u k0 (fun e => (e.1, sinsert e.2 vid))) k v := by
  unfold entryAndModify
  cases hlk : alookup u k0 with
  | none => exact h
  | some sets =>
    rw [despawnedOk, alookup_ainsert]
    by_cases hk : k = k0
    · rw [if_pos hk]
      rcases h with hnone | ⟨sets2, hsets2, hmem⟩
      · rw [hk, hlk] at hnone; cases hnone
      · rw [hk, hlk] at hsets2
        have hss : sets = sets2 := by simpa using hsets2
        subst hss
        exact Or.inr ⟨_, rfl, (mem_sinsert_ne sets.2 v vid hne).2 hmem⟩
    · rw [if_neg hk]
      exact h

theorem spawnedOk_insert1_self (u : DepotUsage) (k0 : DepotIdx × VehicleTypeIdx)
    (vid : VehicleId) :
    spawnedOk (entryAndModify u k0 (fun e => (sinsert e.1 vid, e.2))) k0 vid := by
  unfold entryAndModify
  cases hlk : alookup u k0 with
  | none => exact Or.inl hlk
  | some sets =>
    rw [spawnedOk, alookup_ainsert, if_pos rfl]
    exact Or.inr ⟨_, rfl, mem_sinsert_self sets.1 vid⟩

theorem despawnedOk_insert2_self (u : DepotUsage) (k0 : DepotIdx × VehicleTypeIdx)
    (vid : VehicleId) :
    despawnedOk (entryAndModify u k0 (fun e => (e.1, sinsert e.2 vid))) k0 vid := by
  unfold entryAndModify
  cases hlk : alookup u k0 with
  | none => exact Or.inl hlk
  | some sets =>
    rw [despawnedOk, alookup_ainsert, if_pos rfl]
    exact Or.inr ⟨_, rfl, mem_sinsert_self sets.2 vid⟩

/-- Preservation across the start-depot update: spawned status of other
vehicles and despawned status of every vehicle survive. -/
theorem forNewStart_pres (S' : Schedule) (nw : Network) (u : DepotUsage)
    (veh : Vehicle) (ns : Option NodeIdx) (u' : DepotUsage)
    (h : S'.updateDepotUsageForNewStartDepot nw u veh ns = Except.ok u') :
    (∀ v k, v ≠ veh.id → spawnedOk u k v → spawnedOk u' k v) ∧
    (∀ v k, despawnedOk u k v → despawnedOk u' k v) := by
  obtain ⟨u1, hu1, hnone, hsome⟩ := forNewStart_inversion S' nw u veh ns u' h
  have step1spawn : ∀ v k, v ≠ veh.id → spawnedOk u k v → spawnedOk u1 k v := by
    intro v k hne hs
    rcases hu1 with rfl | ⟨k0, sets, sp', h0, hrem, rfl⟩
    · exact hs
    · exact spawnedOk_remove1 u k0 sets sp' veh.id v k h0 hrem hne hs
  have step1desp : ∀ v k, despawnedOk u k v → despawnedOk u1 k v := by
    intro v k hs
    rcases hu1 with rfl | ⟨k0, sets, sp', h0, hrem, rfl⟩
    · exact hs
    · exact despawnedOk_remove1 u k0 sets sp' veh.id v k h0 hs
  cases ns with
  | none =>
    rw [hnone rfl]
    exact ⟨step1spawn, step1desp⟩
  | some nd =>
    rw [hsome nd rfl]
    constructor
    · intro v k hne hs
      exact spawnedOk_insert1 u1 _ veh.id v k hne (step1spawn v k hne hs)
    · intro v k hs
      exact despawnedOk_insert1 u1 _ veh.id v k (step1desp v k hs)

/-- Preservation across the end-depot update. -/
theorem forNewEnd_pres (S' : Schedule) (nw : Network) (u : DepotUsage)
    (veh : Vehicle) (ns : Option NodeIdx) (u' : DepotUsage)
    (h : S'.updateDepotUsageForNewEndDepot nw u veh ns = Except.ok u') :
    (∀ v k, spawnedOk u k v → spawnedOk u' k v) ∧
    (∀ v k, v ≠ veh.id → despawnedOk u k v → despawnedOk u' k v) := by
  obtain ⟨u1, hu1, hnone, hsome⟩ := forNewEnd_inversion S' nw u veh ns u' h
  have step1spawn : ∀ v k, spawnedOk u k v → spawnedOk u1 k v := by
    intro v k hs
    rcases hu1 with rfl | ⟨k0, sets, de', h0, hrem, rfl⟩
    · exact hs
    · exact spawnedOk_remove2 u k0 sets de' veh.id v k h0 hs
  have step1desp : ∀ v k, v ≠ veh.id → despawnedOk u k v → despawnedOk u1 k v := by
    intro v k hne hs
    rcases hu1 with rfl | ⟨k0, sets, de', h0, hrem, rfl⟩
    · exact hs
    · exact despawnedOk_remove2 u k0 sets de' veh.id v k h0 hrem hne hs
  cases ns with
  | none =>
    rw [hnone rfl]
    exact ⟨step1spawn, step1desp⟩
  | some nd =>
    rw [hsome nd rfl]
    constructor
    · intro v k hs
      exact spawnedOk_insert2 u1 _ veh.id v k (step1spawn v k hs)
    · intro v k hne hs
      exact despawnedOk_insert2 u1 _ veh.id v k hne (step1desp v k hne hs)

/-- The start-depot update registers the vehicle at the new depot. -/
theorem forNewStart_establish (S' : Schedule) (nw : Network) (u : DepotUsage)
    (veh : Vehicle) (nd : NodeIdx) (u' : DepotUsage)
    (h : S'.updateDepotUsageForNewStartDepot nw u veh (some nd) = Except.ok u') :
    spawnedOk u' (nw.depotOf nd, veh.typeId) veh.id := by
  obtain ⟨u1, _, _, hsome⟩ := forNewStart_inversion S' nw u veh (some nd) u' h
  rw [hsome nd rfl]
  exact spawnedOk_insert1_self u1 _ veh.id

/-- The end-depot update registers the vehicle at the new depot. -/
theorem forNewEnd_establish (S' : Schedule) (nw : Network) (u : DepotUsage)
    (veh : Vehicle) (nd : NodeIdx) (u' : DepotUsage)
    (h : S'.updateDepotUsageForNewEndDepot nw u veh (some nd) = Except.ok u') :
    despawnedOk u' (nw.depotOf nd, veh.typeId) veh.id := by
  obtain ⟨u1, _, _, hsome⟩ := forNewEnd_inversion S' nw u veh (some nd) u' h
  rw [hsome nd rfl]
  exact despawnedOk_insert2_self u1 _ veh.id

theorem exceptMap_ok {ε α β : Type} (f : α → β) (a : α) :
    (Except.ok a : Except ε α).map f = Except.ok (f a) := rfl

theorem exceptMap_err {ε α β : Type} (f : α → β) (e : ε) :
    (Except.error e : Except ε α).map f = Except.error e := rfl

/-- Inversion of `update_depot_usage_assuming_no_dummies` on a real new
tour: both depot unwraps succeed and the two depot updates chain. -/
theorem updAssuming_some_inversion (S' : Schedule) (nw : Network)
    (u : DepotUsage) (veh : Vehicle) (t1 : Tour) (u' : DepotUsage)
    (h : S'.updateDepotUsageAssumingNoDummies nw u veh (some t1) = Except.ok u') :
    ∃ sd ed ua, t1.startDepotNode = some sd ∧ t1.endDepotNode = some ed ∧
      S'.updateDepotUsageForNewStartDepot nw u veh (some sd) = Except.ok ua ∧
      S'.updateDepotUsageForNewEndDepot nw ua veh (some ed) = Except.ok u' := by
  unfold Schedule.updateDepotUsageAssumingNoDummies at h
  simp only [] at h
  cases hsd : t1.startDepotNode with
  | none => rw [hsd] at h; simp [unwrapO, exceptMap_err, exceptBind_err] at h
  | some sd =>
    rw [hsd] at h
    simp only [unwrapO_some, exceptMap_ok, exceptBind_ok] at h
    cases hed : t1.endDepotNode with
    | none => rw [hed] at h; simp [unwrapO, exceptMap_err, exceptBind_err] at h
    | some ed =>
      rw [hed] at h
      simp only [unwrapO_some, exceptMap_ok, exceptBind_ok] at h
      cases hs : S'.updateDepotUsageForNewStartDepot nw u veh (some sd) with
      | error e => rw [hs] at h; simp [exceptBind_err] at h
      | ok ua =>
        rw [hs] at h
        simp only [exceptBind_ok] at h
        exact ⟨sd, ed, ua, rfl, rfl, hs, h⟩

/-- Inversion of `update_depot_usage_assuming_no_dummies` with no new
tour. -/
theorem updAssuming_none_inversion (S' : Schedule) (nw : Network)
    (u : DepotUsage) (veh : Vehicle) (u' : DepotUsage)
    (h : S'.updateDepotUsageAssumingNoDummies nw u veh none = Except.ok u') :
    ∃ ua, S'.updateDepotUsageForNewStartDepot nw u veh none = Except.ok ua ∧
      S'.updateDepotUsageForNewEndDepot nw ua veh none = Except.ok u' := by
  unfold Schedule.updateDepotUsageAssumingNoDummies at h
  simp only [exceptPure_eq, exceptBind_ok] at h
  cases hs : S'.updateDepotUsageForNewStartDepot nw u veh none with
  | error e => rw [hs] at h; simp [exceptBind_err] at h
  | ok ua =>
    rw [hs] at h
    simp only [exceptBind_ok] at h
    exact ⟨ua, rfl, h⟩

/-- Preservation across `update_depot_usage_assuming_no_dummies`: usage
facts about vehicles other than the updated one survive. -/
theorem updAssuming_pres (S' : Schedule) (nw : Network) (u : DepotUsage)
    (veh : Vehicle) (nt : Option Tour) (u' : DepotUsage)
    (h : S'.updateDepotUsageAssumingNoDummies nw u veh nt = Except.ok u') :
    ∀ v k, v ≠ veh.id →
      (spawnedOk u k v → spawnedOk u' k v) ∧
      (despawnedOk u k v → despawnedOk u' k v) := by
  cases nt with
  | none =>
    obtain ⟨ua, hs, he⟩ := updAssuming_none_inversion S' nw u veh u' h
    intro v k hne
    refine ⟨fun hsp => ?_, fun hdp => ?_⟩
    · exact (forNewEnd_pres S' nw ua veh none u' he).1 v k
        ((forNewStart_pres S' nw u veh none ua hs).1 v k hne hsp)
    · exact (forNewEnd_pres S' nw ua veh none u' he).2 v k hne
        ((forNewStart_pres S' nw u veh none ua hs).2 v k hdp)
  | some t1 =>
    obtain ⟨sd, ed, ua, _, _, hs, he⟩ :=
      updAssuming_some_inversion S' nw u veh t1 u' h
    intro v k hne
    refine ⟨fun hsp => ?_, fun hdp => ?_⟩
    · exact (forNewEnd_pres S' nw ua veh (some ed) u' he).1 v k
        ((forNewStart_pres S' nw u veh (some sd) ua hs).1 v k hne hsp)
    · exact (forNewEnd_pres S' nw ua veh (some ed) u' he).2 v k hne
        ((forNewStart_pres S' nw u veh (some sd) ua hs).2 v k hdp)

/-- Preservation across `update_depot_usage`. -/
theorem updateDepotUsage_pres (S' : Schedule) (nw : Network) (u : DepotUsage)
    (vehicles : List (VehicleId × Vehicle)) (tours : List (VehicleId × Tour))
    (w : VehicleId) (u' : DepotUsage)
    (h : S'.updateDepotUsage nw u vehicles tours w = Except.ok u')
    (wid1 : ∀ veh, alookup vehicles w = some veh → veh.id = w)
    (wid2 : ∀ veh, alookup S'.vehicles w = some veh → veh.id = w) :
    ∀ v k, v ≠ w →
      (spawnedOk u k v → spawnedOk u' k v) ∧
      (despawnedOk u k v → despawnedOk u' k v) := by
  unfold Schedule.updateDepotUsage at h
  cases hv1 : alookup vehicles w with
  | some veh =>
    rw [hv1] at h
    intro v k hne
    exact updAssuming_pres S' nw u veh (alookup tours w) u' h v k
      (fun he => hne (he.trans (wid1 veh hv1)))
  | none =>
    rw [hv1] at h
    cases hv2 : alookup S'.vehicles w with
    | some veh =>
      rw [hv2] at h
      intro v k hne
      exact updAssuming_pres S' nw u veh none u' h v k
        (fun he => hne (he.trans (wid2 veh hv2)))
    | none =>
      rw [hv2] at h
      have hu : u' = u := by simpa [exceptPure_eq] using h.symm
      subst hu
      intro v k hne
      exact ⟨id, id⟩

/-- The successful `update_depot_usage` of a vehicle with a tour registers
the vehicle at the tour's start and end depots. -/
theorem updateDepotUsage_establish (S' : Schedule) (nw : Network)
    (u : DepotUsage) (vehicles : List (VehicleId × Vehicle))
    (tours : List (VehicleId × Tour)) (w : VehicleId) (u' : DepotUsage)
    (veh : Vehicle) (t1 : Tour)
    (hveh : alookup vehicles w = some veh)
    (htour : alookup tours w = some t1)
    (h : S'.updateDepotUsage nw u vehicles tours w = Except.ok u') :
    ∃ sd ed, t1.startDepotNode = some sd ∧ t1.endDepotNode = some ed ∧
      spawnedOk u' (nw.depotOf sd, veh.typeId) veh.id ∧
      despawnedOk u' (nw.depotOf ed, veh.typeId) veh.id := by
  unfold Schedule.updateDepotUsage at h
  rw [hveh, htour] at h
  obtain ⟨sd, ed, ua, hsd, hed, hs, he⟩ :=
    updAssuming_some_inversion S' nw u veh t1 u' h
  refine ⟨sd, ed, hsd, hed, ?_, ?_⟩
  · exact (forNewEnd_pres S' nw ua veh (some ed) u' he).1 veh.id _
      (forNewStart_establish S' nw u veh sd ua hs)
  · exact forNewEnd_establish S' nw ua veh ed u' he

/-- The start-depot update succeeds when the usage map lists the vehicle as
spawned at the depot of its current start depot (or has no entry there). -/
theorem forNewStart_exists (S' : Schedule) (nw : Network) (u : DepotUsage)
    (veh : Vehicle) (t1 : Tour) (sd : NodeIdx)
    (hv : S'.isVehicle veh.id = true)
    (ht : S'.tourOf veh.id = Except.ok t1)
    (hsd : t1.startDepotNode = some sd)
    (hok : spawnedOk u (nw.depotOf sd, veh.typeId) veh.id) :
    ∃ ua, S'.updateDepotUsageForNewStartDepot nw u veh (some sd) = Except.ok ua := by
  have hm : ∃ ub, entryAndModifyE u (nw.depotOf sd, veh.typeId) (fun e => do
      let sp ← unwrapO (sremove e.1 veh.id) "HashSet remove of absent vehicle"
      pure (sp, e.2)) = Except.ok ub := by
    rcases hok with hnone | ⟨sets, hsets, hmem⟩
    · refine ⟨u, ?_⟩
      unfold entryAndModifyE
      rw [hnone]
      rfl
    · obtain ⟨sp', hsp'⟩ := sremove_isSome_of_mem sets.1 veh.id hmem
      refine ⟨ainsert u (nw.depotOf sd, veh.typeId) (sp', sets.2), ?_⟩
      unfold entryAndModifyE
      rw [hsets]
      simp only [hsp', unwrapO_some, exceptBind_ok, exceptPure_eq]
  obtain ⟨ub, hub⟩ := hm
  refine ⟨entryAndModify ub (nw.depotOf sd, veh.typeId)
    (fun e => (sinsert e.1 veh.id, e.2)), ?_⟩
  unfold Schedule.updateDepotUsageForNewStartDepot
  rw [if_pos hv, ht]
  simp only [exceptPure_eq] at hub
  simp only [unwrapE_ok, exceptBind_ok, hsd, unwrapO_some, exceptPure_eq, hub]

/-- Mirror existence for the end-depot update. -/
theorem forNewEnd_exists (S' : Schedule) (nw : Network) (u : DepotUsage)
    (veh : Vehicle) (t1 : Tour) (ed : NodeIdx)
    (hv : S'.isVehicle veh.id = true)
    (ht : S'.tourOf veh.id = Except.ok t1)
    (hed : t1.endDepotNode = some ed)
    (hok : despawnedOk u (nw.depotOf ed, veh.typeId) veh.id) :
    ∃ ua, S'.updateDepotUsageForNewEndDepot nw u veh (some ed) = Except.ok ua := by
  have hm : ∃ ub, entryAndModifyE u (nw.depotOf ed, veh.typeId) (fun e => do
      let de ← unwrapO (sremove e.2 veh.id) "HashSet remove of absent vehicle"
      pure (e.1, de)) = Except.ok ub := by
    rcases hok with hnone | ⟨sets, hsets, hmem⟩
    · refine ⟨u, ?_⟩
      unfold entryAndModifyE
      rw [hnone]
      rfl
    · obtain ⟨de', hde'⟩ := sremove_isSome_of_mem sets.2 veh.id hmem
      refine ⟨ainsert u (nw.depotOf ed, veh.typeId) (sets.1, de'), ?_⟩
      unfold entryAndModifyE
      rw [hsets]
      simp only [hde', unwrapO_some, exceptBind_ok, exceptPure_eq]
  obtain ⟨ub, hub⟩ := hm
  refine ⟨entryAndModify ub (nw.depotOf ed, veh.typeId)
    (fun e => (e.1, sinsert e.2 veh.id)), ?_⟩
  unfold Schedule.updateDepotUsageForNewEndDepot
  rw [if_pos hv, ht]
  simp only [exceptPure_eq] at hub
  simp only [unwrapE_ok, exceptBind_ok, hed, unwrapO_some, exceptPure_eq, hub]

/-- Existence of a successful `update_depot_usage` in the situation of the
second greedy pass: the stored tour already is the replaced tour, so both
removals target keys at which the vehicle is recorded. -/
theorem updateDepotUsage_exists (S' : Schedule) (nw : Network) (u : DepotUsage)
    (vehicles : List (VehicleId × Vehicle)) (tours : List (VehicleId × Tour))
    (w : VehicleId) (veh : Vehicle) (t1 : Tour) (sd ed : NodeIdx)
    (hveh : alookup vehicles w = some veh)
    (hwid : veh.id = w)
    (hv : S'.isVehicle veh.id = true)
    (ht : S'.tourOf veh.id = Except.ok t1)
    (htour : alookup tours w = some t1)
    (hsd : t1.startDepotNode = some sd)
    (hed : t1.endDepotNode = some ed)
    (hsp : spawnedOk u (nw.depotOf sd, veh.typeId) veh.id)
    (hdp : despawnedOk u (nw.depotOf ed, veh.typeId) veh.id) :
    ∃ u', S'.updateDepotUsage nw u vehicles tours w = Except.ok u' := by
  obtain ⟨ua, hua⟩ := forNewStart_exists S' nw u veh t1 sd hv ht hsd hsp
  have hdp2 : despawnedOk ua (nw.depotOf ed, veh.typeId) veh.id :=
    (forNewStart_pres S' nw u veh (some sd) ua hua).2 veh.id _ hdp
  obtain ⟨u', hu'⟩ := forNewEnd_exists S' nw ua veh t1 ed hv ht hed hdp2
  refine ⟨u', ?_⟩
  unfold Schedule.updateDepotUsage
  rw [hveh, htour]
  unfold Schedule.updateDepotUsageAssumingNoDummies
  simp only [hsd, hed, unwrapO_some, exceptMap_ok, exceptBind_ok, hua, hu']

end UsageLemmas

theorem tourOf_of_lookup (A : Schedule) (v : VehicleId) (t : Tour)
    (h : alookup A.tours v = some t) : A.tourOf v = Except.ok t := by
  unfold Schedule.tourOf
  rw [h]

theorem dropLast_append_of_getLast {α : Type} (l : List α) (a : α)
    (h : l.getLast? = some a) : l.dropLast ++ [a] = l := by
  induction l with
  | nil => cases h
  | cons x xs ih =>
    cases xs with
    | nil =>
      have : a = x := by simpa [List.getLast?] using h.symm
      subst this
      rfl
    | cons y ys =>
      have h' : (y :: ys).getLast? = some a := by
        rw [← h, List.getLast?_cons_cons]
      have := ih h'
      simp only [List.dropLast_cons₂, List.cons_append, this]

theorem endDepotNode_some_inv (t : Tour) (z : NodeIdx)
    (h : t.endDepotNode = some z) :
    t.nodes.getLast? = some z ∧ z.isEndDepot = true := by
  unfold Tour.endDepotNode at h
  rcases hl : t.nodes.getLast? with _ | zl
  · rw [hl] at h
    cases h
  · rw [hl] at h
    simp only [Option.some_bind] at h
    by_cases hd : zl.isEndDepot
    · rw [if_pos hd] at h
      have : zl = z := by simpa using h
      subst this
      exact ⟨rfl, hd⟩
    · rw [if_neg hd] at h
      cases h

/-- The last non-depot node of a tour whose node list ends in a depot is
found in the prefix before the depot. -/
theorem lastNonDepot_nodes (t : Tour) (A : List NodeIdx) (d : NodeIdx)
    (hn : t.nodes = A ++ [d]) (hd : d.isDepot = true) :
    t.lastNonDepot = A.reverse.find? (fun n => !n.isDepot) := by
  unfold Tour.lastNonDepot
  rw [hn]
  simp [List.reverse_append, List.find?, hd]

/-- The per-vehicle invariant transported through the greedy passes: the
vehicle's replaced tour is stored in the accumulated tours, and (when the
vehicle exists) the usage map lists it as spawned at its start depot and
despawned at its end depot. -/
def vehOk (S : Schedule) (nw : Network) (tt : List (VehicleId × Tour))
    (u : DepotUsage) (v : VehicleId) : Prop :=
  ∃ t1, vehData S nw v t1 ∧ alookup tt v = some t1 ∧
    ∀ veh, alookup S.vehicles v = some veh →
      (∃ sd, t1.startDepotNode = some sd ∧
        spawnedOk u (nw.depotOf sd, veh.typeId) v) ∧
      (∃ ed, t1.endDepotNode = some ed ∧
        despawnedOk u (nw.depotOf ed, veh.typeId) v)

/-- One iteration of the first greedy pass preserves the invariant of every
vehicle and establishes it for the processed vehicle. -/
theorem reassignStep_vehOk (S : Schedule) (nw : Network)
    (hvid : ∀ v veh, alookup S.vehicles v = some veh → veh.id = v)
    (t : List (VehicleId × Tour)) (u : DepotUsage) (x : VehicleId)
    (t' : List (VehicleId × Tour)) (u' : DepotUsage)
    (h : S.reassignStep nw (t, u) x = Except.ok (t', u')) :
    (∀ v, vehOk S nw t u v → vehOk S nw t' u' v) ∧ vehOk S nw t' u' x := by
  obtain ⟨t1x, hdx, ht', hupd⟩ := reassignStep_inversion S nw t u x t' u' h
  have hwid1 : ∀ veh, alookup S.vehicles x = some veh → veh.id = x :=
    fun veh hv => hvid x veh hv
  have hestab : vehOk S nw t' u' x := by
    refine ⟨t1x, hdx, by rw [ht']; exact alookup_ainsert_self t x t1x, ?_⟩
    intro veh hveh
    obtain ⟨sd, ed, hsd, hed, hsp, hdp⟩ :=
      updateDepotUsage_establish S nw u S.vehicles (ainsert t x t1x) x u'
        veh t1x hveh (alookup_ainsert_self t x t1x) hupd
    rw [hwid1 veh hveh] at hsp hdp
    exact ⟨⟨sd, hsd, hsp⟩, ⟨ed, hed, hdp⟩⟩
  refine ⟨?_, hestab⟩
  intro v hv
  by_cases hvx : v = x
  · subst hvx
    exact hestab
  · obtain ⟨t1, hd, hlk, hus⟩ := hv
    refine ⟨t1, hd, ?_, ?_⟩
    · rw [ht', alookup_ainsert, if_neg hvx]
      exact hlk
    · intro veh hveh
      obtain ⟨⟨sd, hsd, hsp⟩, ⟨ed, hed, hdp⟩⟩ := hus veh hveh
      have hpres := updateDepotUsage_pres S nw u S.vehicles (ainsert t x t1x)
        x u' hupd hwid1 hwid1 v
      exact ⟨⟨sd, hsd, (hpres _ hvx).1 hsp⟩, ⟨ed, hed, (hpres _ hvx).2 hdp⟩⟩

/-- The first greedy pass establishes the invariant for every processed
vehicle (and preserves it for everyone). -/
theorem fold1_main (S : Schedule) (nw : Network)
    (hvid : ∀ v veh, alookup S.vehicles v = some veh → veh.id = v) :
    ∀ (L : List VehicleId) (t : List (VehicleId × Tour)) (u : DepotUsage)
      (tr : List (VehicleId × Tour)) (ur : DepotUsage),
      List.foldlM (S.reassignStep nw) (t, u) L = Except.ok (tr, ur) →
      (∀ v, vehOk S nw t u v → vehOk S nw tr ur v) ∧
      (∀ v, v ∈ L → vehOk S nw tr ur v) := by
  intro L
  induction L with
  | nil =>
    intro t u tr ur h
    have h2 : t = tr ∧ u = ur := by
      simpa [List.foldlM_nil, exceptPure_eq, Prod.ext_iff] using h
    obtain ⟨rfl, rfl⟩ := h2
    exact ⟨fun v hv => hv, fun v hv => absurd hv (List.not_mem_nil v)⟩
  | cons x xs ih =>
    intro t u tr ur h
    rw [List.foldlM_cons] at h
    cases hstep : S.reassignStep nw (t, u) x with
    | error e =>
      rw [hstep] at h
      simp [exceptBind_err] at h
    | ok b =>
      rw [hstep] at h
      simp only [exceptBind_ok] at h
      obtain ⟨t2, u2⟩ := b
      obtain ⟨hpres, hestab⟩ := reassignStep_vehOk S nw hvid t u x t2 u2 hstep
      obtain ⟨hrest, hmem⟩ := ih t2 u2 tr ur h
      refine ⟨fun v hv => hrest v (hpres v hv), ?_⟩
      intro v hv
      rcases List.mem_cons.1 hv with rfl | hv'
      · exact hrest v hestab
      · exact hmem v hv'

/-- One iteration of the second greedy pass leaves the tours unchanged and
succeeds, because the stored tour already ends in the chosen nearest end
depot; the usage facts are re-established for the processed vehicle and
preserved for everyone else. -/
theorem reassignStep_identity (S S₁ : Schedule) (nw : Network)
    (T1 : List (VehicleId × Tour))
    (hS1v : S₁.vehicles = S.vehicles) (hS1t : S₁.tours = T1)
    (hvid : ∀ v veh, alookup S.vehicles v = some veh → veh.id = v)
    (u : DepotUsage) (w : VehicleId) (hw : vehOk S nw T1 u w) :
    ∃ u', S₁.reassignStep nw (T1, u) w = Except.ok (T1, u') ∧
      ∀ v, vehOk S nw T1 u v → vehOk S nw T1 u' v := by
  obtain ⟨t1, hdata, hlook, husage⟩ := hw
  obtain ⟨tv, lastNd, d, htv, hlnd, hend, hrep⟩ := hdata
  obtain ⟨hdEnd, ⟨z, hz⟩, ⟨prev, hprev, hr⟩, ht1⟩ :=
    replaceEndDepot_inversion nw tv d t1 hrep
  obtain ⟨hzl, hzEnd⟩ := endDepotNode_some_inv tv z hz
  have htvnodes : tv.nodes.dropLast ++ [z] = tv.nodes :=
    dropLast_append_of_getLast tv.nodes z hzl
  have f1 : S₁.tourOf w = Except.ok t1 := by
    apply tourOf_of_lookup
    rw [hS1t]
    exact hlook
  have f2 : t1.lastNonDepot = some lastNd := by
    have hA : t1.nodes = tv.nodes.dropLast ++ [d] := by rw [ht1]
    rw [lastNonDepot_nodes t1 tv.nodes.dropLast d hA (isDepot_of_isEndDepot d hdEnd)]
    have hB : tv.lastNonDepot
        = tv.nodes.dropLast.reverse.find? (fun n => !n.isDepot) :=
      lastNonDepot_nodes tv tv.nodes.dropLast z htvnodes.symm
        (isDepot_of_isEndDepot z hzEnd)
    rw [← hB]
    exact hlnd
  have f4 : t1.replaceEndDepot nw d = Except.ok t1 := by
    rw [ht1]
    exact replaceEndDepot_self nw tv.nodes.dropLast d tv.isDummyTour hdEnd
      prev hprev hr
  have f5 : ainsert T1 w t1 = T1 := ainsert_lookup_eq T1 w t1 hlook
  have hupdex : ∃ u', S₁.updateDepotUsage nw u S₁.vehicles (ainsert T1 w t1) w
      = Except.ok u' := by
    cases hveh : alookup S.vehicles w with
    | none =>
      refine ⟨u, ?_⟩
      unfold Schedule.updateDepotUsage
      rw [hS1v, hveh]
      rfl
    | some veh =>
      have hwid : veh.id = w := hvid w veh hveh
      obtain ⟨⟨sd, hsd, hsp⟩, ⟨ed, hed, hdp⟩⟩ := husage veh hveh
      refine updateDepotUsage_exists S₁ nw u S₁.vehicles (ainsert T1 w t1)
        w veh t1 sd ed (by rw [hS1v]; exact hveh) hwid ?_ ?_
        (alookup_ainsert_self T1 w t1) hsd hed ?_ ?_
      · unfold Schedule.isVehicle
        rw [hwid, hS1v, hveh]
        rfl
      · rw [hwid]
        exact f1
      · rw [hwid]
        exact hsp
      · rw [hwid]
        exact hdp
  obtain ⟨u', hupd⟩ := hupdex
  rw [f5] at hupd
  refine ⟨u', ?_, ?_⟩
  · unfold Schedule.reassignStep
    rw [f1]
    simp only [unwrapE_ok, exceptBind_ok, f2, unwrapO_some, hend, f4, f5, hupd,
      exceptPure_eq]
  · intro v hv
    obtain ⟨t1v, hdv, hlkv, husv⟩ := hv
    by_cases hvw : v = w
    · subst hvw
      have ht1v : t1v = t1 := vehData_unique S nw v t1v t1 hdv
        ⟨tv, lastNd, d, htv, hlnd, hend, hrep⟩
      subst ht1v
      refine ⟨t1v, hdv, hlkv, ?_⟩
      intro veh hveh
      have hwid : veh.id = v := hvid v veh hveh
      obtain ⟨sd, ed, hsd, hed, hsp, hdp⟩ :=
        updateDepotUsage_establish S₁ nw u S₁.vehicles T1 v u'
          veh t1v (by rw [hS1v]; exact hveh) hlkv hupd
      rw [hwid] at hsp hdp
      exact ⟨⟨sd, hsd, hsp⟩, ⟨ed, hed, hdp⟩⟩
    · refine ⟨t1v, hdv, hlkv, ?_⟩
      intro veh hveh
      obtain ⟨⟨sd, hsd, hsp⟩, ⟨ed, hed, hdp⟩⟩ := husv veh hveh
      have hwid : ∀ veh2, alookup S₁.vehicles w = some veh2 → veh2.id = w := by
        intro veh2 hveh2
        rw [hS1v] at hveh2
        exact hvid w veh2 hveh2
      have hpres := updateDepotUsage_pres S₁ nw u S₁.vehicles
        T1 w u' hupd hwid hwid v
      exact ⟨⟨sd, hsd, (hpres _ hvw).1 hsp⟩, ⟨ed, hed, (hpres _ hvw).2 hdp⟩⟩

/-- The second greedy pass leaves the accumulated tours unchanged and
succeeds, for any order of vehicles satisfying the invariant. -/
theorem fold2_identity (S S₁ : Schedule) (nw : Network)
    (T1 : List (VehicleId × Tour))
    (hS1v : S₁.vehicles = S.vehicles) (hS1t : S₁.tours = T1)
    (hvid : ∀ v veh, alookup S.vehicles v = some veh → veh.id = v) :
    ∀ (L : List VehicleId) (u : DepotUsage),
      (∀ v, v ∈ L → vehOk S nw T1 u v) →
      ∃ u2, List.foldlM (S₁.reassignStep nw) (T1, u) L = Except.ok (T1, u2) := by
  intro L
  induction L with
  | nil =>
    intro u _
    exact ⟨u, rfl⟩
  | cons x xs ih =>
    intro u hall
    obtain ⟨u', hstep, hpres⟩ := reassignStep_identity S S₁ nw T1 hS1v hS1t
      hvid u x (hall x (List.mem_cons_self x xs))
    obtain ⟨u2, hfold⟩ := ih u'
      (fun v hv => hpres v (hall v (List.mem_cons.2 (Or.inr hv))))
    refine ⟨u2, ?_⟩
    rw [List.foldlM_cons, hstep]
    simp only [exceptBind_ok]
    exact hfold

theorem listCmpWith_refl {α : Type} (cmp : α → α → Ordering)
    (hrefl : ∀ a, cmp a a = Ordering.eq) :
    ∀ l : List α, listCmpWith cmp l l = Ordering.eq := by
  intro l
  induction l with
  | nil => rfl
  | cons x xs ih =>
    rw [listCmpWith, hrefl, ih]
    rfl

theorem tourCmp_self (t : Tour) : tourCmp t t = Ordering.eq :=
  listCmpWith_refl nodeCmp nodeCmp_self t.nodes

theorem zipCmpTours_self : ∀ l : List Tour, zipCmpTours l l = Ordering.eq := by
  intro l
  induction l with
  | nil => rfl
  | cons x xs ih =>
    rw [zipCmpTours, tourCmp_self]
    exact ih

theorem tourPairsCmp_refl (A B : Schedule) :
    ∀ L : List VehicleId,
      (∀ v ∈ L, ∃ t, A.tourOf v = Except.ok t ∧ B.tourOf v = Except.ok t) →
      tourPairsCmp A B L L = Except.ok Ordering.eq := by
  intro L
  induction L with
  | nil => intro _; rfl
  | cons v vs ih =>
    intro h
    obtain ⟨t, hA, hB⟩ := h v (List.mem_cons_self v vs)
    rw [tourPairsCmp, hA, hB]
    simp only [unwrapE_ok, exceptBind_ok, tourCmp_self]
    exact ih (fun w hw => h w (List.mem_cons.2 (Or.inr hw)))

theorem ordThen_eq_left (b : Ordering) : ordThen Ordering.eq b = b := rfl

/-- Two schedules with the same sorted vehicle ids, the same vehicle count,
the same dummy tours and pairwise equal tours compare `Equal`. -/
theorem scheduleCmpE_eq_of (A B : Schedule)
    (hL : A.vehicleIdsSorted = B.vehicleIdsSorted)
    (hn : A.numberOfVehicles = B.numberOfVehicles)
    (hd : A.dummyTours = B.dummyTours)
    (ht : ∀ v ∈ B.vehicleIdsSorted,
      ∃ t, A.tourOf v = Except.ok t ∧ B.tourOf v = Except.ok t) :
    scheduleCmpE A B = Except.ok Ordering.eq := by
  have htp : tourPairsCmp A B A.vehicleIdsSorted B.vehicleIdsSorted
      = Except.ok Ordering.eq := by
    rw [hL]
    exact tourPairsCmp_refl A B B.vehicleIdsSorted ht
  have hdc : dummyToursCmp A B = Ordering.eq := by
    unfold dummyToursCmp
    rw [hd]
    exact zipCmpTours_self _
  unfold scheduleCmpE
  rw [htp]
  simp only [exceptBind_ok, exceptPure_eq, hn, natCmp_self, ordThen_eq_left]
  rw [hdc]

/-- Inversion of a successful `reassign_end_depots_greedily`. -/
theorem reassign_inversion (S : Schedule) (nw : Network) (S₁ : Schedule)
    (h : S.reassignEndDepotsGreedily nw = Except.ok S₁) :
    ∃ tr ur,
      List.foldlM (S.reassignStep nw) (S.tours, S.depotUsage)
        S.vehicleIdsSorted = Except.ok (tr, ur) ∧
      S₁ = { S with
        tours := tr
        depotUsage := ur
        vehicleCounter := S.vehicleCounter + 1 } := by
  unfold Schedule.reassignEndDepotsGreedily at h
  cases hfold : List.foldlM (S.reassignStep nw) (S.tours, S.depotUsage)
      S.vehicleIdsSorted with
  | error e =>
    rw [hfold] at h
    simp [exceptBind_err] at h
  | ok res =>
    obtain ⟨tr, ur⟩ := res
    rw [hfold] at h
    simp only [exceptBind_ok, exceptPure_eq, Except.ok.injEq] at h
    exact ⟨tr, ur, rfl, h.symm⟩

/-- **C6.**  On a schedule whose vehicles are keyed by their own identifier,
`reassign_end_depots_greedily` is idempotent: if the first application
succeeds, the second also succeeds and returns a schedule with the same
tours, vehicles, train formations, dummy tours and sorted id vectors, and
that is equal to the first result under the schedule ordering of
`impl Ord for Schedule` (which ignores `depot_usage` and
`vehicle_counter`).  The second pass replaces each vehicle's end depot by
the same nearest end depot that the first pass chose. -/
theorem c6_reassign_end_depots_idempotent (S : Schedule) (nw : Network)
    (S₁ : Schedule)
    (hvid : ∀ v veh, alookup S.vehicles v = some veh → veh.id = v)
    (h1 : S.reassignEndDepotsGreedily nw = Except.ok S₁) :
    ∃ S₂, S₁.reassignEndDepotsGreedily nw = Except.ok S₂ ∧
      S₂.tours = S₁.tours ∧
      S₂.vehicles = S₁.vehicles ∧
      S₂.trainFormations = S₁.trainFormations ∧
      S₂.dummyTours = S₁.dummyTours ∧
      S₂.vehicleIdsSorted = S₁.vehicleIdsSorted ∧
      S₂.dummyIdsSorted = S₁.dummyIdsSorted ∧
      scheduleCmpE S₂ S₁ = Except.ok Ordering.eq ∧
      scheduleEqE S₂ S₁ = Except.ok true := by
  obtain ⟨tr, ur, hfold, hS1⟩ := reassign_inversion S nw S₁ h1
  have hS1v : S₁.vehicles = S.vehicles := by rw [hS1]
  have hS1t : S₁.tours = tr := by rw [hS1]
  have hS1u : S₁.depotUsage = ur := by rw [hS1]
  have hS1ids : S₁.vehicleIdsSorted = S.vehicleIdsSorted := by rw [hS1]
  obtain ⟨_, hmem⟩ := fold1_main S nw hvid S.vehicleIdsSorted S.tours
    S.depotUsage tr ur hfold
  obtain ⟨u2, hfold2⟩ := fold2_identity S S₁ nw tr hS1v hS1t hvid
    S.vehicleIdsSorted ur hmem
  refine ⟨{ S₁ with
    tours := tr
    depotUsage := u2
    vehicleCounter := S₁.vehicleCounter + 1 }, ?_, ?_, rfl, rfl, rfl,
    rfl, rfl, ?_, ?_⟩
  · unfold Schedule.reassignEndDepotsGreedily
    rw [hS1t, hS1u, hS1ids, hfold2]
    rfl
  · exact hS1t.symm
  · refine scheduleCmpE_eq_of _ S₁ rfl ?_ rfl ?_
    · unfold Schedule.numberOfVehicles
      rfl
    · intro v hv
      rw [hS1ids] at hv
      obtain ⟨t1, _, hlk, _⟩ := hmem v hv
      refine ⟨t1, tourOf_of_lookup _ v t1 hlk, tourOf_of_lookup S₁ v t1 ?_⟩
      rw [hS1t]
      exact hlk
  · have hcmp : scheduleCmpE { S₁ with
        tours := tr
        depotUsage := u2
        vehicleCounter := S₁.vehicleCounter + 1 } S₁ = Except.ok Ordering.eq := by
      refine scheduleCmpE_eq_of _ S₁ rfl ?_ rfl ?_
      · unfold Schedule.numberOfVehicles
        rfl
      · intro v hv
        rw [hS1ids] at hv
        obtain ⟨t1, _, hlk, _⟩ := hmem v hv
        refine ⟨t1, tourOf_of_lookup _ v t1 hlk, tourOf_of_lookup S₁ v t1 ?_⟩
        rw [hS1t]
        exact hlk
    unfold scheduleEqE
    rw [hcmp]
    rfl

/-- A one-vehicle schedule on `nwOne` whose tour already ends in the single
end depot. -/
def Sone : Schedule where
  vehicles := [(VehicleId.vehicle 0, ⟨VehicleId.vehicle 0, 0, 50⟩)]
  tours := [(VehicleId.vehicle 0,
    ⟨[NodeIdx.startDepot 0, NodeIdx.service 0, NodeIdx.endDepot 0], false⟩)]
  trainFormations := [(NodeIdx.service 0, ⟨[⟨VehicleId.vehicle 0, 0, 50⟩]⟩)]
  depotUsage := []
  dummyTours := []
  vehicleIdsSorted := [VehicleId.vehicle 0]
  dummyIdsSorted := []
  vehicleCounter := 1

/-- The result of the first greedy pass on `Sone`: only the vehicle counter
moves. -/
def SoneAfter : Schedule := { Sone with vehicleCounter := 2 }

theorem c6_reassign_end_depots_idempotent_witness :
    (∀ v veh, alookup Sone.vehicles v = some veh → veh.id = v) ∧
    Sone.reassignEndDepotsGreedily nwOne = Except.ok SoneAfter ∧
    (∃ S₂, SoneAfter.reassignEndDepotsGreedily nwOne = Except.ok S₂ ∧
      S₂.tours = SoneAfter.tours ∧
      S₂.vehicles = SoneAfter.vehicles ∧
      S₂.trainFormations = SoneAfter.trainFormations ∧
      S₂.dummyTours = SoneAfter.dummyTours ∧
      S₂.vehicleIdsSorted = SoneAfter.vehicleIdsSorted ∧
      S₂.dummyIdsSorted = SoneAfter.dummyIdsSorted ∧
      scheduleCmpE S₂ SoneAfter = Except.ok Ordering.eq ∧
      scheduleEqE S₂ SoneAfter = Except.ok true) := by
  have hvid : ∀ v veh, alookup Sone.vehicles v = some veh → veh.id = v := by
    intro v veh h
    by_cases hv : VehicleId.vehicle 0 = v
    · subst hv
      have hveh : veh = ⟨VehicleId.vehicle 0, 0, 50⟩ := by
        simp [Sone, alookup] at h
        exact h.symm
      rw [hveh]
    · simp [Sone, alookup, hv] at h
  exact ⟨hvid, by decide,
    c6_reassign_end_depots_idempotent Sone nwOne SoneAfter hvid (by decide)⟩

end RS
